import Mathlib

/-!
# Verification of the atomiq bet-settlement core

Shallow embedding of the work-distribution and settlement state machine:

* the Redis-backed bet queue (`services/backend/src/repository/redis_bet_repository/`):
  hash records, the `claimable`/`processing` sorted-set indexes, the Lua scripts
  `CLAIM_PENDING_SCRIPT`, `FAIL_RETRYABLE_SCRIPT`, `CAS_UPDATE_SCRIPT`, and the
  Rust wrappers `create`, `claim_pending`, `update_status`, `update_status_with_version`;
* the retry policy (`retry.rs`);
* the settlement processor (`services/processor/src/`): `coordinator.rs` batch
  packing, `circuit_breaker.rs`, `blockchain_client.rs` HTTP retry loops and
  `settlement_worker.rs` per-settlement processing.

Redis conventions mirrored here: a hash field that was never written reads as the
empty string, and the scripts read numeric fields with `tonumber(... or '0')`, so
absent numeric fields read as `0`.  Sorted sets are modelled as association lists
from member to score; `ZRANGEBYSCORE` sorts by score and then lexicographically by
member, which we realise by sorting at query time (the representation order of the
list is unobservable through the modelled operations).
-/

namespace Atomiq

/-! ## Bet status (backend `domain.rs` / `status.rs`) -/

/-- `BetStatus` enum from `services/backend/src/domain.rs`. -/
inductive BetStatus where
  | pending
  | batched
  | submittedToSolana
  | confirmedOnSolana
  | completed
  | failedRetryable
  | failedManualReview
deriving DecidableEq, Repr

/-- `status_to_string` from `redis_bet_repository/status.rs`. -/
def statusToString : BetStatus → String
  | .pending => "pending"
  | .batched => "batched"
  | .submittedToSolana => "submitted_to_solana"
  | .confirmedOnSolana => "confirmed_on_solana"
  | .completed => "completed"
  | .failedRetryable => "failed_retryable"
  | .failedManualReview => "failed_manual_review"

/-! ## Bet hash record (`bet:<id>` Redis hash)

Fields written by `RedisBetRepository::create` and mutated by the scripts.
Numeric fields (`retry_count`, `version`, `next_attempt_at_ms`, ...) are stored by
Redis as strings; we keep them as integers because every read in the source goes
through `tonumber(... or '0')` (Lua) or a parse with a `0` default (Rust). -/
structure BetRecord where
  betId : String
  createdAtMs : Int
  userWallet : String
  vaultAddress : String
  allowancePda : String
  casinoId : String
  gameType : String
  stakeAmount : Int
  stakeToken : String
  choice : String
  status : String
  externalBatchId : String
  solanaTxId : String
  retryCount : Int
  nextAttemptAtMs : Int
  processorId : String
  lastErrorCode : String
  lastErrorMessage : String
  payoutAmount : String
  won : String
  version : Int
deriving DecidableEq, Repr

/-- The all-absent hash: string fields empty, numeric fields reading as `0`.
`HSET` on a missing key creates the hash, so field updates go through this. -/
def BetRecord.empty : BetRecord :=
  { betId := "", createdAtMs := 0, userWallet := "", vaultAddress := "",
    allowancePda := "", casinoId := "", gameType := "", stakeAmount := 0,
    stakeToken := "", choice := "", status := "", externalBatchId := "",
    solanaTxId := "", retryCount := 0, nextAttemptAtMs := 0, processorId := "",
    lastErrorCode := "", lastErrorMessage := "", payoutAmount := "", won := "",
    version := 0 }

/-! ## Sorted sets (`bets:claimable`, `bets:processing`, `bets:user:<wallet>`) -/

/-- A Redis sorted set: association list of (member, score), members unique in
every store produced by the modelled operations. -/
abbrev ZSet := List (String × Int)

/-- `ZADD key score member` (updates the score if the member exists). -/
def zadd (z : ZSet) (score : Int) (member : String) : ZSet :=
  (member, score) :: z.filter (fun e => e.1 != member)

/-- `ZREM key member`. -/
def zrem (z : ZSet) (member : String) : ZSet :=
  z.filter (fun e => e.1 != member)

/-- `ZSCORE key member`. -/
def zscore (z : ZSet) (member : String) : Option Int :=
  (z.find? (fun e => e.1 == member)).map Prod.snd

/-- Membership test on a sorted set. -/
def zmem (z : ZSet) (member : String) : Bool :=
  z.any (fun e => e.1 == member)

/-- Order in which `ZRANGEBYSCORE` returns entries: ascending score, ties broken
by lexicographic member order. -/
def entryLE (a b : String × Int) : Prop :=
  a.2 < b.2 ∨ (a.2 = b.2 ∧ a.1 ≤ b.1)

instance : DecidableRel entryLE := fun a b =>
  inferInstanceAs (Decidable (a.2 < b.2 ∨ (a.2 = b.2 ∧ a.1 ≤ b.1)))

/-- `ZRANGEBYSCORE key -inf maxScore WITHSCORES LIMIT 0 limit`. -/
def zrangebyscoreLimited (z : ZSet) (maxScore : Int) (limit : Nat) : List (String × Int) :=
  (List.insertionSort entryLE (z.filter (fun e => e.2 ≤ maxScore))).take limit

/-! ## The key-value store -/

/-- The persistent state seen by the queue: the bet hashes, the two work indexes
and the per-user index. -/
structure Store where
  bets : String → Option BetRecord
  claimable : ZSet
  processing : ZSet
  userIndex : String → ZSet

def Store.empty : Store :=
  { bets := fun _ => none, claimable := [], processing := [], userIndex := fun _ => [] }

/-- Write (or overwrite) a bet hash. -/
def setBet (s : Store) (id : String) (r : BetRecord) : Store :=
  { s with bets := fun k => if k = id then some r else s.bets k }

/-- Read a bet hash for field updates; a missing key behaves as the empty hash. -/
def getBet (s : Store) (id : String) : BetRecord :=
  (s.bets id).getD BetRecord.empty

/-- `HGET bet:<id> status`, absent fields reading as `""`. -/
def hgetStatus (s : Store) (id : String) : String :=
  ((s.bets id).map BetRecord.status).getD ""

/-- `tonumber(HGET bet:<id> retry_count) or '0'`. -/
def hgetRetryCount (s : Store) (id : String) : Int :=
  ((s.bets id).map BetRecord.retryCount).getD 0

/-- `tonumber(HGET bet:<id> version) or '0'`. -/
def hgetVersion (s : Store) (id : String) : Int :=
  ((s.bets id).map BetRecord.version).getD 0

/-- `tonumber(HGET bet:<id> next_attempt_at_ms) or '0'`. -/
def hgetNextAttempt (s : Store) (id : String) : Int :=
  ((s.bets id).map BetRecord.nextAttemptAtMs).getD 0

/-! ## Retry policy (`retry.rs`) -/

/-- `i64::MAX`, the saturation bound of the Rust arithmetic. -/
def i64Max : Int := 9223372036854775807

/-- `i64::MIN`. -/
def i64Min : Int := -9223372036854775808

/-- Saturating `i64` arithmetic result. -/
def clampI64 (x : Int) : Int := max (min x i64Max) i64Min

/-- Default of `max_retry_count()` (`BET_MAX_RETRIES`). -/
def defaultMaxRetries : Int := 5

/-- Default of `retry_backoff_base_ms()` (`BET_RETRY_BACKOFF_BASE_MS`). -/
def defaultBackoffBaseMs : Int := 2000

/-- Default of `retry_backoff_max_ms()` (`BET_RETRY_BACKOFF_MAX_MS`). -/
def defaultBackoffMaxMs : Int := 60000

/-- `compute_backoff_ms` from `retry.rs`: `min(base * 2^(n-1), max)` with the
`n.max(1)` guard and `i64` saturating `pow`/`mul`. -/
def computeBackoffMs (base maxMs n : Int) : Int :=
  let k := max n 1
  let factor := clampI64 (2 ^ (k - 1).toNat)
  min (clampI64 (base * factor)) maxMs

/-! ## Store operations -/

/-- `RedisBetRepository::create`: write the full hash with status `pending`,
`retry_count = 0`, `version = 0`; `ZADD` the user index and `claimable`, both
with score `now_ms`. -/
def createBet (s : Store) (id userWallet vaultAddress allowancePda stakeToken choice : String)
    (stakeAmount nowMs : Int) : Store :=
  let r : BetRecord :=
    { betId := id, createdAtMs := nowMs, userWallet := userWallet,
      vaultAddress := vaultAddress, allowancePda := allowancePda, casinoId := "",
      gameType := "coinflip", stakeAmount := stakeAmount, stakeToken := stakeToken,
      choice := choice, status := "pending", externalBatchId := "", solanaTxId := "",
      retryCount := 0, nextAttemptAtMs := 0, processorId := "", lastErrorCode := "",
      lastErrorMessage := "", payoutAmount := "", won := "", version := 0 }
  let s := setBet s id r
  { s with
    claimable := zadd s.claimable nowMs id,
    userIndex := fun w => if w = userWallet then zadd (s.userIndex w) nowMs id else s.userIndex w }

/-- `CAS_UPDATE_SCRIPT`: compare `version` (absent reads `0`) with the expected
value; on match set `status` and `HINCRBY version 1` and return `1`, else return
`0` without touching anything. -/
def casUpdate (s : Store) (id : String) (expected : Int) (newStatus : String) :
    Store × Bool :=
  let current := hgetVersion s id
  if current ≠ expected then (s, false)
  else
    let r := getBet s id
    (setBet s id { r with status := newStatus, version := current + 1 }, true)

/-- `FAIL_RETRYABLE_SCRIPT`: increment `retry_count`, clear `solana_tx_id`; if the
new count exceeds `max_retries` go to `failed_manual_review` and leave both
indexes; otherwise go to `failed_retryable`, stamp `next_attempt_at_ms = now +
backoff`, `ZADD claimable` with that score and `ZREM processing`. -/
def failRetryableScript (s : Store) (id : String) (nowMs maxRetries backoffMs : Int) :
    Store × (String × Int) :=
  let currentRetry := hgetRetryCount s id
  let newRetry := currentRetry + 1
  let s1 := setBet s id { getBet s id with retryCount := newRetry, solanaTxId := "" }
  if newRetry > maxRetries then
    let s2 := setBet s1 id { getBet s1 id with status := "failed_manual_review" }
    let s3 := { s2 with claimable := zrem s2.claimable id, processing := zrem s2.processing id }
    (s3, ("failed_manual_review", newRetry))
  else
    let nextAttemptAt := nowMs + backoffMs
    let s2 := setBet s1 id
      { getBet s1 id with status := "failed_retryable", nextAttemptAtMs := nextAttemptAt }
    let s3 := { s2 with
      claimable := zadd s2.claimable nextAttemptAt id,
      processing := zrem s2.processing id }
    (s3, ("failed_retryable", newRetry))

/-- The atomic-pipeline arm of `RedisBetRepository::update_status`: write
`status` (and `solana_tx_id` when given), clear the error fields outside
failure states, and move the id between the indexes according to the status
table. -/
def updateStatusPipe (s : Store) (id : String) (st : BetStatus)
    (solanaTxId : Option String) (nowMs : Int) : Store :=
  let r := getBet s id
  let r := { r with status := statusToString st }
  let r := match solanaTxId with
    | some tx => { r with solanaTxId := tx }
    | none => r
  let r := if st = .failedRetryable ∨ st = .failedManualReview then r
    else { r with lastErrorCode := "", lastErrorMessage := "" }
  let s1 := setBet s id r
  if st = .failedRetryable ∨ st = .pending then
    { s1 with claimable := zadd s1.claimable nowMs id, processing := zrem s1.processing id }
  else if st = .batched then
    { s1 with claimable := zrem s1.claimable id, processing := zadd s1.processing nowMs id }
  else
    { s1 with claimable := zrem s1.claimable id, processing := zrem s1.processing id }

/-- `RedisBetRepository::update_status`.  `FailedRetryable` goes through
`FAIL_RETRYABLE_SCRIPT` with `backoff = compute_backoff_ms(current_retry + 1)`;
every other status runs the pipeline. -/
def updateStatus (s : Store) (id : String) (status : BetStatus) (solanaTxId : Option String)
    (nowMs maxRetries base maxMs : Int) : Store :=
  match status with
  | .failedRetryable =>
    let currentRetry := hgetRetryCount s id
    let backoffMs := computeBackoffMs base maxMs (currentRetry + 1)
    (failRetryableScript s id nowMs maxRetries backoffMs).1
  | st => updateStatusPipe s id st solanaTxId nowMs

/-- One iteration of the `CLAIM_PENDING_SCRIPT` loop body: `ZREM claimable`,
`ZADD processing` with the original score, `HSET status/external_batch_id/processor_id`. -/
def claimEntryStep (batchId processorId : String) (acc : Store × List String)
    (e : String × Int) : Store × List String :=
  let s := acc.1
  let s1 := { s with
    claimable := zrem s.claimable e.1,
    processing := zadd s.processing e.2 e.1 }
  let r2 := { getBet s1 e.1 with
    status := "batched", externalBatchId := batchId, processorId := processorId }
  let s2 := setBet s1 e.1 r2
  (s2, acc.2 ++ [e.1])

/-- `CLAIM_PENDING_SCRIPT`: select the due entries (`score ≤ now_ms`, up to
`limit`, in `ZRANGEBYSCORE` order) and move each from `claimable` to
`processing`, stamping the hash. Returns the claimed ids in claim order. -/
def claimPendingScript (s : Store) (limit : Nat) (batchId processorId : String)
    (nowMs : Int) : Store × List String :=
  (zrangebyscoreLimited s.claimable nowMs limit).foldl
    (claimEntryStep batchId processorId) (s, [])

/-- `RedisBetRepository::claim_pending`: clamp the limit with
`limit.max(0).min(500)` and run the script. -/
def repoClaimPending (s : Store) (limit : Int) (batchId processorId : String)
    (nowMs : Int) : Store × List String :=
  claimPendingScript s (min (max limit 0) 500).toNat batchId processorId nowMs

/-- `get_pending_bets` handler (`handlers/external.rs`): the effective limit is
`query.limit.unwrap_or(100).min(500)`. -/
def handlerEffectiveLimit (queryLimit : Option Int) : Int :=
  min (queryLimit.getD 100) 500

/-! ## Processor: settlements, HTTP client, worker, coordinator, breaker -/

/-- Character-list prefix test (used for the substring checks the worker performs
with Rust `str::contains`). -/
def charsStart : List Char → List Char → Bool
  | [], _ => true
  | _ :: _, [] => false
  | a :: as, b :: bs => a == b && charsStart as bs

/-- Character-list substring test. -/
def charsSubstr (pat : List Char) : List Char → Bool
  | [] => charsStart pat []
  | b :: bs => charsStart pat (b :: bs) || charsSubstr pat bs

/-- Rust `str::contains` on strings. -/
def strContainsSub (s pat : String) : Bool :=
  charsSubstr pat.toList s.toList

/-- The worker's version-conflict test:
`error_str.contains("Version conflict") || error_str.contains("409")`. -/
def isConflictErrorStr (msg : String) : Bool :=
  strContainsSub msg "Version conflict" || strContainsSub msg "409"

/-- `GameSettlementInfo` from `blockchain_client.rs`. -/
structure GameSettlementInfo where
  transactionId : Nat
  playerAddress : String
  gameType : String
  betAmount : Nat
  token : String
  outcome : String
  payout : Nat
  vrfProof : String
  vrfOutput : String
  blockHeight : Nat
  version : Nat
  solanaTxId : Option String
  retryCount : Nat
  nextRetryAfter : Option Int
  allowancePda : Option String
deriving DecidableEq, Repr

/-- One `update_settlement_status` POST body (`UpdateSettlementRequest` plus the
target transaction id). -/
structure UpdateStatusCall where
  txId : Nat
  status : String
  solanaTxId : Option String
  errorMessage : Option String
  expectedVersion : Nat
  retryCount : Option Nat
  nextRetryAfter : Option Int
deriving DecidableEq, Repr

/-- Observable actions of a settlement worker: settlements-service updates,
on-chain submissions (`settle_on_solana`, split on `outcome == "Win"`), and
sleeps (seconds). -/
inductive WorkerEvent where
  | update (call : UpdateStatusCall)
  | submit (isWin : Bool)
  | sleepSec (seconds : Nat)
deriving DecidableEq, Repr

/-- The completion call issued by `update_settlement_complete_with_retry`. -/
def completionCall (txId : Nat) (sig : String) (expectedVersion : Nat) : UpdateStatusCall :=
  { txId := txId, status := "SettlementComplete", solanaTxId := some sig,
    errorMessage := none, expectedVersion := expectedVersion, retryCount := none,
    nextRetryAfter := none }

/-- Loop body of `update_settlement_complete_with_retry`
(`settlement_worker.rs`).  Each element of `responses` is the outcome the
environment returns for one `update_settlement_status` call (`Ok new_version`
or the displayed error string).  `Ok` and version-conflict errors terminate the
loop with success; any other error sleeps `backoff` seconds and retries with
`backoff := min (backoff * 2) 60`.  An exhausted response list means the loop is
still running (`none`) — the source loops forever. -/
def completionAux (txId : Nat) (sig : String) (expectedVersion : Nat) (backoff : Nat) :
    List (Except String Nat) → List WorkerEvent × Option Unit
  | [] => ([], none)
  | r :: rest =>
    let call := WorkerEvent.update (completionCall txId sig expectedVersion)
    match r with
    | .ok _ => ([call], some ())
    | .error e =>
      if isConflictErrorStr e then ([call], some ())
      else
        let next := completionAux txId sig expectedVersion (min (backoff * 2) 60) rest
        (call :: WorkerEvent.sleepSec backoff :: next.1, next.2)

/-- `update_settlement_complete_with_retry`: the loop starts with a 1-second
backoff. -/
def updateSettlementCompleteWithRetry (txId : Nat) (sig : String) (expectedVersion : Nat)
    (responses : List (Except String Nat)) : List WorkerEvent × Option Unit :=
  completionAux txId sig expectedVersion 1 responses

/-- `SettlementWorker::process_settlement`.  `updates` supplies the outcome of
each `update_settlement_status` call in order, `submitRes` the outcome of
`settle_on_solana`.  Returns the event trace and the return value (`none` while
the critical completion loop is still retrying). -/
def processSettlement (game : GameSettlementInfo) (updates : List (Except String Nat))
    (submitRes : Except String String) (nowMs : Int) :
    List WorkerEvent × Option (Except String Unit) :=
  match game.solanaTxId with
  | some existing =>
    let t := updateSettlementCompleteWithRetry game.transactionId existing game.version updates
    (t.1, t.2.map (fun _ => Except.ok ()))
  | none =>
    let subCall := WorkerEvent.update
      { txId := game.transactionId, status := "SubmittedToSolana", solanaTxId := none,
        errorMessage := none, expectedVersion := game.version, retryCount := none,
        nextRetryAfter := none }
    match updates with
    | [] => ([subCall], none)
    | u :: rest =>
      match u with
      | .error e =>
        if isConflictErrorStr e then ([subCall], some (Except.ok ()))
        else ([subCall], some (Except.error "Failed to update status to SubmittedToSolana"))
      | .ok _ =>
        match submitRes with
        | .ok sig =>
          let t := updateSettlementCompleteWithRetry game.transactionId sig
            (game.version + 1) rest
          (subCall :: WorkerEvent.submit (game.outcome == "Win") :: t.1,
           t.2.map (fun _ => Except.ok ()))
        | .error e =>
          let newRetryCount := game.retryCount + 1
          let failTarget : String × Option Int :=
            if newRetryCount ≥ 3 then ("SettlementFailedPermanent", none)
            else ("SettlementFailed", some (nowMs + (newRetryCount : Int) * 5 * 1000))
          let failCall := WorkerEvent.update
            { txId := game.transactionId, status := failTarget.1, solanaTxId := none,
              errorMessage := some ("Solana settlement failed: " ++ e),
              expectedVersion := game.version + 1, retryCount := some newRetryCount,
              nextRetryAfter := failTarget.2 }
          ([subCall, WorkerEvent.submit (game.outcome == "Win"), failCall],
           some (Except.error e))

/-! ### `BlockchainClient::fetch_pending_settlements` -/

/-- What the environment returns for one HTTP GET of the pending endpoint:
either a transport failure or a response with a status code, a body text and
the parse result of the body. -/
inductive FetchOutcome where
  | transportFail (msg : String)
  | httpResponse (status : Nat) (bodyText : String) (parsed : Option (List GameSettlementInfo))
deriving DecidableEq, Repr

/-- `StatusCode::is_success()`: the 2xx range. -/
def statusIsSuccess (st : Nat) : Bool := 200 ≤ st && st < 300

/-- `fetch_pending_settlements_once`: transport errors surface as their anyhow
context, non-2xx responses as `Blockchain API error <status>: <body>`, parse
failures as their context; a 2xx parsed response yields the games. -/
def fetchPendingOnce (o : FetchOutcome) : Except String (List GameSettlementInfo) :=
  match o with
  | .transportFail _ => .error "HTTP request failed"
  | .httpResponse st body parsed =>
    if !statusIsSuccess st then
      .error ("Blockchain API error " ++ toString st ++ ": " ++ body)
    else
      match parsed with
      | some games => .ok games
      | none => .error "Failed to parse response"

/-- `MAX_RETRIES` of `blockchain_client.rs`. -/
def fetchMaxRetries : Nat := 3

/-- Result of the fetch loop: the returned value, the sleeps performed (ms) and
the number of attempts made. -/
structure FetchTrace where
  result : Except String (List GameSettlementInfo)
  sleepsMs : List Nat
  attempts : Nat
deriving Repr

/-- The `for attempt in 1..=MAX_RETRIES` loop of `fetch_pending_settlements`:
any error on the last attempt is returned (anyhow context shown); any earlier
error — of any kind — sleeps `2^(attempt-1)` seconds and retries.  `fuel`
counts the remaining admissible attempts and starts at `MAX_RETRIES`. -/
def fetchPendingLoop (outs : Nat → FetchOutcome) : Nat → Nat → List Nat → FetchTrace
  | _, 0, sleeps => { result := .error "unreachable", sleepsMs := sleeps, attempts := 0 }
  | attempt, fuel + 1, sleeps =>
    match fetchPendingOnce (outs (attempt - 1)) with
    | .ok games => { result := .ok games, sleepsMs := sleeps, attempts := attempt }
    | .error _ =>
      if attempt == fetchMaxRetries then
        { result := .error "Failed to fetch pending settlements after retries",
          sleepsMs := sleeps, attempts := attempt }
      else
        let backoffMs := 2 ^ (attempt - 1) * 1000
        fetchPendingLoop outs (attempt + 1) fuel (sleeps ++ [backoffMs])

/-- `fetch_pending_settlements` entry point; `outs n` is the outcome of the
`(n+1)`-th attempt.  (`e` is unused in the last-attempt branch only through the
anyhow context display.) -/
def fetchPendingSettlements (outs : Nat → FetchOutcome) : FetchTrace :=
  fetchPendingLoop outs 1 fetchMaxRetries []

/-! ### `Coordinator::create_batches` (batch ids abstracted away) -/

/-- The accumulation loop of `create_batches`: push each settlement onto
`current_batch`; once `current_batch.len() >= max_size`, emit it and start a
fresh one.  Returns the emitted batches and the trailing remainder. -/
def createBatchesLoop (maxSize : Nat) :
    List α → List (List α) → List α → List (List α) × List α
  | [], batches, cur => (batches, cur)
  | x :: rest, batches, cur =>
    let cur2 := cur ++ [x]
    if maxSize ≤ cur2.length then createBatchesLoop maxSize rest (batches ++ [cur2]) []
    else createBatchesLoop maxSize rest batches cur2

/-- The merge branch for a too-small remainder: extend the last emitted batch
(`batches.last_mut()`); the empty case mirrors the source's unreachable
"no batches yet, create one anyway" arm. -/
def mergeIntoLast : List (List α) → List α → List (List α)
  | [], cur => [cur]
  | [b], cur => [b ++ cur]
  | b :: bs, cur => b :: mergeIntoLast bs cur

/-- `Coordinator::create_batches`, with each batch represented by its ordered
settlement list (the fresh UUID batch ids carry no information). -/
def createBatches (minSize maxSize : Nat) (settlements : List α) : List (List α) :=
  if settlements.isEmpty then []
  else
    let p := createBatchesLoop maxSize settlements [] []
    if p.2.isEmpty then p.1
    else if minSize ≤ p.2.length ∨ p.1.isEmpty then p.1 ++ [p.2]
    else mergeIntoLast p.1 p.2

/-! ### `CircuitBreaker` (`circuit_breaker.rs`) -/

inductive CircuitState where
  | closed
  | opened
  | halfOpen
deriving DecidableEq, Repr

/-- Circuit breaker state.  `Instant`-based times are integers; `elapsed >
reset_timeout` is modelled as `now - t > resetTimeout`. -/
structure CircuitBreaker where
  failureCount : Nat
  lastFailureTime : Option Int
  state : CircuitState
  failureThreshold : Nat
  resetTimeout : Int
deriving DecidableEq, Repr

/-- `CircuitBreaker::on_success`: zero the counter; a half-open breaker closes. -/
def onSuccess (cb : CircuitBreaker) : CircuitBreaker :=
  { cb with
    failureCount := 0,
    state := if cb.state = .halfOpen then .closed else cb.state }

/-- `CircuitBreaker::on_failure`: increment the counter and stamp
`last_failure_time`; transition to `Open` only once the counter reaches the
threshold. -/
def onFailure (cb : CircuitBreaker) (now : Int) : CircuitBreaker :=
  let failures := cb.failureCount + 1
  let cb1 := { cb with failureCount := failures, lastFailureTime := some now }
  if cb1.failureThreshold ≤ failures then { cb1 with state := .opened } else cb1

/-- Outcome of `CircuitBreaker::call`. -/
inductive CBResult (ε τ : Type) where
  | opened
  | operationFailed (e : ε)
  | ok (t : τ)
deriving DecidableEq, Repr

/-- `CircuitBreaker::call`: an open breaker admits the call (going half-open)
only after the reset timeout, otherwise rejects; then the wrapped operation runs
and `on_success`/`on_failure` applies. -/
def cbCall (cb : CircuitBreaker) (now : Int) (opResult : Except ε τ) :
    CircuitBreaker × CBResult ε τ :=
  let gate : CircuitBreaker × Bool :=
    if cb.state = .opened then
      match cb.lastFailureTime with
      | some t =>
        if now - t > cb.resetTimeout then ({ cb with state := .halfOpen }, true)
        else (cb, false)
      | none => (cb, false)
    else (cb, true)
  if gate.2 then
    match opResult with
    | .ok t => (onSuccess gate.1, .ok t)
    | .error e => (onFailure gate.1 now, .operationFailed e)
  else (gate.1, .opened)

/-! ## Sorted-set lemmas -/

theorem beq_false_of_ne {a b : String} (h : a ≠ b) : (a == b) = false := by
  cases hab : a == b
  · rfl
  · exact absurd (by exact eq_of_beq hab) h

theorem any_key_filter (z : ZSet) (id k : String) (h : k ≠ id) :
    (z.filter fun e => e.1 != id).any (fun e => e.1 == k) =
      z.any (fun e => e.1 == k) := by
  induction z with
  | nil => rfl
  | cons e t ih =>
    by_cases he : e.1 = id
    · have hk : (e.1 == k) = false := beq_false_of_ne (fun hkk => h (hkk.symm.trans he))
      have hfe : (e.1 != id) = false := by simp [he]
      rw [List.filter_cons, hfe, if_neg (by simp), ih, List.any_cons, hk]
      simp
    · have hfe : (e.1 != id) = true := by simp [he]
      rw [List.filter_cons, hfe, if_pos rfl, List.any_cons, List.any_cons, ih]

theorem find?_key_filter (z : ZSet) (id k : String) (h : k ≠ id) :
    (z.filter fun e => e.1 != id).find? (fun e => e.1 == k) =
      z.find? (fun e => e.1 == k) := by
  induction z with
  | nil => rfl
  | cons e t ih =>
    by_cases he : e.1 = id
    · have hk : (e.1 == k) = false := beq_false_of_ne (fun hkk => h (hkk.symm.trans he))
      have hfe : (e.1 != id) = false := by simp [he]
      rw [List.filter_cons, hfe, if_neg (by simp), ih,
        List.find?_cons_of_neg (p := fun e : String × Int => e.1 == k) _ (by simp [hk])]
    · have hfe : (e.1 != id) = true := by simp [he]
      cases hke : (e.1 == k) with
      | true =>
        rw [List.filter_cons, hfe, if_pos rfl,
          List.find?_cons_of_pos (p := fun e : String × Int => e.1 == k) _ hke,
          List.find?_cons_of_pos (p := fun e : String × Int => e.1 == k) _ hke]
      | false =>
        rw [List.filter_cons, hfe, if_pos rfl,
          List.find?_cons_of_neg (p := fun e : String × Int => e.1 == k) _ (by simp [hke]),
          List.find?_cons_of_neg (p := fun e : String × Int => e.1 == k) _ (by simp [hke]), ih]

theorem zmem_zadd_self (z : ZSet) (sc : Int) (id : String) :
    zmem (zadd z sc id) id = true := by
  simp [zmem, zadd, List.any_cons]

theorem zmem_zadd_of_ne (z : ZSet) (sc : Int) (id k : String) (h : k ≠ id) :
    zmem (zadd z sc id) k = zmem z k := by
  have hk : (id == k) = false := beq_false_of_ne (fun hkk => h hkk.symm)
  rw [zmem, zadd, List.any_cons]
  show (id == k || _) = _
  rw [hk, Bool.false_or]
  exact any_key_filter z id k h

theorem zmem_zrem_self (z : ZSet) (id : String) :
    zmem (zrem z id) id = false := by
  rw [zmem, zrem]
  rw [List.any_eq_false]
  intro e he
  have := List.of_mem_filter he
  simp at this
  simp [this]

theorem zmem_zrem_of_ne (z : ZSet) (id k : String) (h : k ≠ id) :
    zmem (zrem z id) k = zmem z k := by
  rw [zmem, zrem, any_key_filter z id k h, zmem]

theorem zscore_zadd_self (z : ZSet) (sc : Int) (id : String) :
    zscore (zadd z sc id) id = some sc := by
  rw [zscore, zadd, List.find?_cons_of_pos _ (by simp)]
  rfl

theorem zscore_zadd_of_ne (z : ZSet) (sc : Int) (id k : String) (h : k ≠ id) :
    zscore (zadd z sc id) k = zscore z k := by
  have hk : (id == k) = false := beq_false_of_ne (fun hkk => h hkk.symm)
  rw [zscore, zadd, List.find?_cons_of_neg _ (by simp [hk]), find?_key_filter z id k h, zscore]

theorem zscore_zrem_self (z : ZSet) (id : String) :
    zscore (zrem z id) id = none := by
  rw [zscore, zrem]
  have : List.find? (fun e => e.1 == id) (z.filter fun e => e.1 != id) = none := by
    rw [List.find?_eq_none]
    intro e he
    have := List.of_mem_filter he
    simp at this
    simp [this]
  rw [this]
  rfl

theorem zscore_zrem_of_ne (z : ZSet) (id k : String) (h : k ≠ id) :
    zscore (zrem z id) k = zscore z k := by
  rw [zscore, zrem, find?_key_filter z id k h, zscore]

/-- With unique members, pair membership and `ZSCORE` agree. -/
theorem zscore_eq_some_of_mem (z : ZSet) (id : String) (sc : Int)
    (hnd : (z.map Prod.fst).Nodup) (hmem : (id, sc) ∈ z) :
    zscore z id = some sc := by
  induction z with
  | nil => simp at hmem
  | cons e t ih =>
    simp only [List.map_cons, List.nodup_cons] at hnd
    rcases List.mem_cons.mp hmem with he | ht
    · rw [zscore, ← he,
        List.find?_cons_of_pos (p := fun e : String × Int => e.1 == id) _ (by simp)]
      rfl
    · have hne : e.1 ≠ id := by
        intro hcontr
        exact hnd.1 (hcontr ▸ List.mem_map_of_mem Prod.fst ht)
      rw [zscore, List.find?_cons_of_neg (p := fun e : String × Int => e.1 == id) _ (by simp [hne])]
      exact ih hnd.2 ht

theorem mem_of_zscore_eq_some (z : ZSet) (id : String) (sc : Int)
    (hsc : zscore z id = some sc) : (id, sc) ∈ z := by
  induction z with
  | nil => simp [zscore] at hsc
  | cons e t ih =>
    cases he : (e.1 == id) with
    | true =>
      rw [zscore, List.find?_cons_of_pos (p := fun e : String × Int => e.1 == id) _ he] at hsc
      have he2 : e.1 = id := by exact eq_of_beq he
      have hsc2 : e.2 = sc := by
        simpa using hsc
      have : e = (id, sc) := by
        cases e
        simp_all
      simp [this]
    | false =>
      rw [zscore,
        List.find?_cons_of_neg (p := fun e : String × Int => e.1 == id) _ (by simp [he])] at hsc
      exact List.mem_cons_of_mem _ (ih hsc)

/-! ## C10: the claim limit cap -/

theorem claim_foldl_snd (b p : String) (es : List (String × Int)) :
    ∀ (st : Store) (acc : List String),
      (es.foldl (claimEntryStep b p) (st, acc)).2 = acc ++ es.map Prod.fst := by
  induction es with
  | nil => intro st acc; simp
  | cons e rest ih =>
    intro st acc
    rw [List.foldl_cons]
    have hstep : claimEntryStep b p (st, acc) e =
        ((claimEntryStep b p (st, acc) e).1, acc ++ [e.1]) := by
      simp [claimEntryStep]
    rw [hstep, ih]
    simp

/-- C10: `claim_pending` clamps its limit into `[0, 500]` (a negative limit
claims nothing and leaves the store untouched), so at most 500 bets are claimed
per call; the HTTP handler defaults a missing `limit` to 100 and caps any
requested limit at 500. -/
theorem claim_pending_limit_cap (s : Store) (limit : Int) (batchId pid : String)
    (now : Int) :
    (0 ≤ min (max limit 0) 500 ∧ min (max limit 0) 500 ≤ 500) ∧
    (repoClaimPending s limit batchId pid now).2.length ≤ 500 ∧
    (limit < 0 → repoClaimPending s limit batchId pid now = (s, [])) ∧
    handlerEffectiveLimit none = 100 ∧
    (∀ q : Option Int, handlerEffectiveLimit q ≤ 500) := by
  refine ⟨⟨by omega, by omega⟩, ?_, ?_, by simp [handlerEffectiveLimit], ?_⟩
  · have hlen : (repoClaimPending s limit batchId pid now).2.length =
        (zrangebyscoreLimited s.claimable now (min (max limit 0) 500).toNat).length := by
      simp [repoClaimPending, claimPendingScript, claim_foldl_snd]
    rw [hlen]
    have := List.length_take ((min (max limit 0) 500).toNat)
      (List.insertionSort entryLE (s.claimable.filter (fun e => e.2 ≤ now)))
    simp only [zrangebyscoreLimited]
    rw [this]
    have hle : (min (max limit 0) 500).toNat ≤ 500 := by omega
    omega
  · intro hneg
    have hz : (min (max limit 0) 500).toNat = 0 := by omega
    simp [repoClaimPending, hz, claimPendingScript, zrangebyscoreLimited]
  · intro q
    cases q <;> simp [handlerEffectiveLimit]

/-! ## C7: circuit breaker, half-open failure -/

/-- C7 counterexample: a half-open breaker with failure counter `0` and
threshold `5` stays half-open after a failing call — `on_failure` moves to
`Open` only when the incremented counter reaches the threshold, so the claim's
"for every value of the failure counter" is false. -/
theorem circuit_breaker_halfopen_cex :
    (cbCall { failureCount := 0, lastFailureTime := some 0, state := .halfOpen,
              failureThreshold := 5, resetTimeout := 60 } 1
        (Except.error (0 : Nat) : Except Nat Nat)).1.state = CircuitState.halfOpen ∧
    ¬ (cbCall { failureCount := 0, lastFailureTime := some 0, state := .halfOpen,
                failureThreshold := 5, resetTimeout := 60 } 1
        (Except.error (0 : Nat) : Except Nat Nat)).1.state = CircuitState.opened := by
  constructor
  · rfl
  · decide

/-- C7 (amended): a failing call on a half-open breaker always refreshes
`last_failure_time` to the failure instant, and transitions the breaker to
`Open` when the incremented failure counter reaches the failure threshold
(which holds in every state the breaker actually reaches half-open in). -/
theorem circuit_breaker_halfopen_failure {ε τ : Type} (cb : CircuitBreaker) (now : Int)
    (e : ε) (hHalf : cb.state = CircuitState.halfOpen) :
    ((cbCall cb now (Except.error e : Except ε τ)).1.lastFailureTime = some now) ∧
    (cb.failureThreshold ≤ cb.failureCount + 1 →
      (cbCall cb now (Except.error e : Except ε τ)).1.state = CircuitState.opened) := by
  have hne : ¬ cb.state = CircuitState.opened := by rw [hHalf]; intro h; cases h
  constructor
  · simp [cbCall, hne, onFailure]
    by_cases hth : cb.failureThreshold ≤ cb.failureCount + 1 <;> simp [hth]
  · intro hth
    simp [cbCall, hne, onFailure, hth]

/-- Witness for C7: a concrete half-open breaker at the threshold opens and
stamps the failure time. -/
theorem circuit_breaker_halfopen_failure_witness :
    ((cbCall { failureCount := 7, lastFailureTime := some 0, state := .halfOpen,
               failureThreshold := 5, resetTimeout := 60 } 3
        (Except.error (0 : Nat) : Except Nat Nat)).1.lastFailureTime = some 3) ∧
    ((cbCall { failureCount := 7, lastFailureTime := some 0, state := .halfOpen,
               failureThreshold := 5, resetTimeout := 60 } 3
        (Except.error (0 : Nat) : Except Nat Nat)).1.state = CircuitState.opened) := by
  have h := circuit_breaker_halfopen_failure (ε := Nat) (τ := Nat)
    { failureCount := 7, lastFailureTime := some 0, state := .halfOpen,
      failureThreshold := 5, resetTimeout := 60 } 3 0 rfl
  exact ⟨h.1, h.2 (by decide)⟩

/-! ## C6: coordinator batch packing -/

theorem mergeIntoLast_join (bs : List (List α)) (c : List α) :
    (mergeIntoLast bs c).flatten = bs.flatten ++ c := by
  induction bs with
  | nil => simp [mergeIntoLast]
  | cons b bs ih =>
    cases bs with
    | nil => simp [mergeIntoLast]
    | cons b2 bs2 =>
      simp only [mergeIntoLast, List.flatten_cons] at ih ⊢
      rw [ih]
      simp

theorem mergeIntoLast_dropLast (bs : List (List α)) (c : List α) (h : bs ≠ []) :
    (mergeIntoLast bs c).dropLast = bs.dropLast := by
  induction bs with
  | nil => exact absurd rfl h
  | cons b bs ih =>
    cases bs with
    | nil => simp [mergeIntoLast]
    | cons b2 bs2 =>
      have hne : b2 :: bs2 ≠ [] := by simp
      have hm : mergeIntoLast (b :: b2 :: bs2) c = b :: mergeIntoLast (b2 :: bs2) c := rfl
      rw [hm]
      have hlen : mergeIntoLast (b2 :: bs2) c ≠ [] := by
        cases bs2 <;> simp [mergeIntoLast]
      rw [List.dropLast_cons_of_ne_nil hlen, List.dropLast_cons_of_ne_nil hne, ih hne]

theorem mergeIntoLast_getLast? (bs : List (List α)) (c : List α) (h : bs ≠ []) :
    (mergeIntoLast bs c).getLast? = bs.getLast?.map (· ++ c) := by
  induction bs with
  | nil => exact absurd rfl h
  | cons b bs ih =>
    cases bs with
    | nil => simp [mergeIntoLast]
    | cons b2 bs2 =>
      have hne : b2 :: bs2 ≠ [] := by simp
      have hm : mergeIntoLast (b :: b2 :: bs2) c = b :: mergeIntoLast (b2 :: bs2) c := rfl
      rw [hm]
      obtain ⟨hh, tt, hct⟩ : ∃ h t, mergeIntoLast (b2 :: bs2) c = h :: t := by
        cases bs2 <;> exact ⟨_, _, rfl⟩
      rw [hct, List.getLast?_cons_cons, ← hct, ih hne, List.getLast?_cons_cons]

/-- Invariants of the accumulation loop of `create_batches`: emitted batches
have exactly `max_size` elements, the remainder stays shorter than `max_size`,
nothing is lost or reordered, the remainder length is the length modulo
`max_size`, and no batch is emitted iff everything fits in the remainder. -/
theorem createBatchesLoop_spec (maxS : Nat) (hmax : 1 ≤ maxS) (l : List α) :
    ∀ (batches : List (List α)) (cur : List α),
      (∀ b ∈ batches, b.length = maxS) → cur.length < maxS →
      (∀ b ∈ (createBatchesLoop maxS l batches cur).1, b.length = maxS) ∧
      (createBatchesLoop maxS l batches cur).2.length < maxS ∧
      (createBatchesLoop maxS l batches cur).1.flatten ++
          (createBatchesLoop maxS l batches cur).2 = batches.flatten ++ cur ++ l ∧
      (createBatchesLoop maxS l batches cur).2.length =
          (cur.length + l.length) % maxS ∧
      batches.length ≤ (createBatchesLoop maxS l batches cur).1.length ∧
      ((createBatchesLoop maxS l batches cur).1 = batches ↔
          cur.length + l.length < maxS) := by
  induction l with
  | nil =>
    intro batches cur hb hcur
    refine ⟨hb, hcur, by simp [createBatchesLoop], ?_, ?_, ?_⟩
    · simp [createBatchesLoop, Nat.mod_eq_of_lt hcur]
    · simp [createBatchesLoop]
    · simp [createBatchesLoop, hcur]
  | cons x rest ih =>
    intro batches cur hb hcur
    rw [createBatchesLoop]
    by_cases hflush : maxS ≤ (cur ++ [x]).length
    · rw [if_pos hflush]
      have hcurlen : (cur ++ [x]).length = maxS := by
        simp at hflush ⊢
        omega
      have hb2 : ∀ b ∈ batches ++ [cur ++ [x]], b.length = maxS := by
        intro b hbmem
        rcases List.mem_append.mp hbmem with hmem | hmem
        · exact hb b hmem
        · simp at hmem
          rw [hmem, hcurlen]
      have h0 : ([] : List α).length < maxS := by simpa using hmax
      obtain ⟨ha, hc, hj, hr, hl, _⟩ := ih (batches ++ [cur ++ [x]]) [] hb2 h0
      have hlen : batches.length < (createBatchesLoop maxS rest (batches ++ [cur ++ [x]]) []).1.length := by
        have : (batches ++ [cur ++ [x]]).length = batches.length + 1 := by simp
        omega
      refine ⟨ha, hc, ?_, ?_, le_of_lt hlen, ?_⟩
      · rw [hj]
        simp
      · rw [hr]
        have h2 : cur.length + (x :: rest).length = maxS + rest.length := by
          simp at hcurlen ⊢
          omega
        rw [h2, Nat.add_mod_left]
        simp
      · have hRHS : ¬ cur.length + (x :: rest).length < maxS := by
          simp at hcurlen ⊢
          omega
        have hLHS : ¬ (createBatchesLoop maxS rest (batches ++ [cur ++ [x]]) []).1 = batches := by
          intro hcontr
          rw [hcontr] at hlen
          omega
        exact iff_of_false hLHS hRHS
    · rw [if_neg hflush]
      have hcur2 : (cur ++ [x]).length < maxS := Nat.lt_of_not_le hflush
      obtain ⟨ha, hc, hj, hr, hl, hne⟩ := ih batches (cur ++ [x]) hb hcur2
      refine ⟨ha, hc, ?_, ?_, hl, ?_⟩
      · rw [hj]
        simp
      · rw [hr]
        congr 1
        simp
        omega
      · rw [hne]
        simp
        omega

/-- C6 counterexample: with `batch_max_size = 0` (a value the configuration
parser accepts), every pushed settlement immediately satisfies
`current_batch.len() >= max_size`, so `create_batches` emits singleton batches —
the claim's "every emitted batch except the last has exactly `batch_max_size`
settlements" fails at the input `[0, 1]` with `min = max = 0`. -/
theorem create_batches_cex :
    ¬ (∀ b ∈ (createBatches 0 0 [0, 1] : List (List Nat)).dropLast, b.length = 0) := by
  decide

/-- C6 (amended): for every `batch_max_size ≥ 1`, `create_batches` returns
batches that concatenate to exactly the input in order; every batch except the
last has exactly `batch_max_size` settlements; and the last batch has the
remainder size when the remainder is acceptable (at least `batch_min_size`, or
nothing was emitted yet), the merged size `batch_max_size + remainder` when a
too-small remainder is folded into the last emitted batch, and `batch_max_size`
when the input divides evenly. -/
theorem createBatches_eq_of_ne_nil {α : Type} (minS maxS : Nat) (l : List α) (hl : l ≠ [])
    (B : List (List α)) (R : List α) (hBR : createBatchesLoop maxS l [] [] = (B, R)) :
    createBatches minS maxS l =
      (if R.isEmpty then B
       else if minS ≤ R.length ∨ B.isEmpty then B ++ [R]
       else mergeIntoLast B R) := by
  rw [createBatches, if_neg (by simp [hl])]
  show (if (createBatchesLoop maxS l [] []).2.isEmpty then (createBatchesLoop maxS l [] []).1
    else if minS ≤ (createBatchesLoop maxS l [] []).2.length ∨
        (createBatchesLoop maxS l [] []).1.isEmpty then
      (createBatchesLoop maxS l [] []).1 ++ [(createBatchesLoop maxS l [] []).2]
    else mergeIntoLast (createBatchesLoop maxS l [] []).1 (createBatchesLoop maxS l [] []).2) = _
  rw [hBR]

theorem create_batches_spec {α : Type} (minS maxS : Nat) (l : List α) (hmax : 1 ≤ maxS) :
    (createBatches minS maxS l).flatten = l ∧
    (∀ b ∈ (createBatches minS maxS l).dropLast, b.length = maxS) ∧
    (l ≠ [] → ∃ lastB, (createBatches minS maxS l).getLast? = some lastB ∧
      lastB.length = (if l.length % maxS = 0 then maxS
        else if minS ≤ l.length % maxS ∨ l.length < maxS then l.length % maxS
        else maxS + l.length % maxS)) := by
  by_cases hl : l = []
  · subst hl
    refine ⟨by simp [createBatches], by simp [createBatches], by simp⟩
  · obtain ⟨B, R, hBR⟩ : ∃ B R, createBatchesLoop maxS l [] [] = (B, R) := ⟨_, _, rfl⟩
    obtain ⟨hall, hrlt, hjoin, hrmod, _, hemp⟩ :=
      createBatchesLoop_spec maxS hmax l [] [] (by simp) (by simpa using hmax)
    rw [hBR] at hall hrlt hjoin hrmod hemp
    have hjoin2 : B.flatten ++ R = l := by simpa using hjoin
    have hrmod2 : R.length = l.length % maxS := by simpa using hrmod
    have hemp2 : B = [] ↔ l.length < maxS := by simpa using hemp
    have hulf := createBatches_eq_of_ne_nil minS maxS l hl B R hBR
    by_cases hrem : R = []
    · have hres : createBatches minS maxS l = B := by
        rw [hulf, if_pos (by simp [hrem])]
      have hjoin3 : B.flatten = l := by
        rw [← hjoin2, hrem]
        simp
      have hbn : B ≠ [] := by
        intro hcontr
        rw [hcontr] at hjoin3
        exact hl (by simpa using hjoin3.symm)
      refine ⟨by rw [hres]; exact hjoin3, ?_, ?_⟩
      · intro b hb
        rw [hres] at hb
        exact hall b (List.dropLast_sublist _ |>.mem hb)
      · intro _
        have hr0 : l.length % maxS = 0 := by
          rw [← hrmod2, hrem]
          rfl
        refine ⟨B.getLast hbn, ?_, ?_⟩
        · rw [hres, List.getLast?_eq_getLast _ hbn]
        · rw [if_pos hr0]
          exact hall _ (List.getLast_mem hbn)
    · have hrne0 : l.length % maxS ≠ 0 := by
        rw [← hrmod2]
        simpa [List.length_eq_zero] using hrem
      by_cases hcond : minS ≤ R.length ∨ B.isEmpty
      · have hres : createBatches minS maxS l = B ++ [R] := by
          rw [hulf, if_neg (by simp [hrem]), if_pos hcond]
        have hcond2 : minS ≤ l.length % maxS ∨ l.length < maxS := by
          rcases hcond with h | h
          · exact Or.inl (hrmod2 ▸ h)
          · exact Or.inr (hemp2.mp (by simpa [List.isEmpty_iff] using h))
        refine ⟨?_, ?_, ?_⟩
        · rw [hres]
          simpa using hjoin2
        · intro b hb
          rw [hres, List.dropLast_concat] at hb
          exact hall b hb
        · intro _
          refine ⟨R, ?_, ?_⟩
          · rw [hres, List.getLast?_concat]
          · rw [if_neg hrne0, if_pos hcond2]
            exact hrmod2
      · have hnemin : ¬ minS ≤ R.length := fun h => hcond (Or.inl h)
        have hbne : B ≠ [] := fun h => hcond (Or.inr (by simp [h]))
        have hres : createBatches minS maxS l = mergeIntoLast B R := by
          rw [hulf, if_neg (by simp [hrem]), if_neg hcond]
        have hcond3 : ¬ (minS ≤ l.length % maxS ∨ l.length < maxS) := by
          intro h
          rcases h with h | h
          · exact hnemin (by rw [hrmod2]; exact h)
          · exact hbne (hemp2.mpr h)
        refine ⟨?_, ?_, ?_⟩
        · rw [hres, mergeIntoLast_join]
          exact hjoin2
        · intro b hb
          rw [hres, mergeIntoLast_dropLast _ _ hbne] at hb
          exact hall b (List.dropLast_sublist _ |>.mem hb)
        · intro _
          refine ⟨B.getLast hbne ++ R, ?_, ?_⟩
          · rw [hres, mergeIntoLast_getLast? _ _ hbne, List.getLast?_eq_getLast _ hbne]
            rfl
          · rw [if_neg hrne0, if_neg hcond3]
            rw [List.length_append, hrmod2, hall _ (List.getLast_mem hbne)]

/-- Witness for C6 (boundary scenario S5): 25 settlements with `min = 3`,
`max = 12` pack into batches of sizes 12 and 13 and concatenate to the input. -/
theorem create_batches_spec_witness :
    (createBatches 3 12 (List.range 25)).map List.length = [12, 13] ∧
    (createBatches 3 12 (List.range 25)).flatten = List.range 25 := by
  exact ⟨by decide, (create_batches_spec 3 12 (List.range 25) (by decide)).1⟩

/-! ## C1: the critical completion loop -/

/-- Projection of the sleep events of a worker trace. -/
def evSleep : WorkerEvent → Option Nat
  | .sleepSec n => some n
  | _ => none

/-- Projection of the settlements-service update calls of a worker trace. -/
def evUpdate : WorkerEvent → Option UpdateStatusCall
  | .update c => some c
  | _ => none

/-- A response that terminates the completion loop: success, or an error whose
display contains `Version conflict` or `409`. -/
def updTerminal : Except String Nat → Bool
  | .ok _ => true
  | .error e => isConflictErrorStr e

theorem completionAux_events (txId : Nat) (sig : String) (ver : Nat) (b : Nat)
    (rs : List (Except String Nat)) :
    ∀ ev ∈ (completionAux txId sig ver b rs).1,
      ev = WorkerEvent.update (completionCall txId sig ver) ∨
      ∃ n, ev = WorkerEvent.sleepSec n := by
  induction rs generalizing b with
  | nil => intro ev hev; simp [completionAux] at hev
  | cons r rest ih =>
    intro ev hev
    match r with
    | .ok v =>
      simp [completionAux] at hev
      exact Or.inl hev
    | .error e =>
      by_cases hc : isConflictErrorStr e
      · simp [completionAux, hc] at hev
        exact Or.inl hev
      · simp [completionAux, hc] at hev
        rcases hev with hev | hev | hev
        · exact Or.inl hev
        · exact Or.inr ⟨b, hev⟩
        · exact ih (min (b * 2) 60) ev hev

theorem completionAux_result (txId : Nat) (sig : String) (ver : Nat) (b : Nat)
    (rs : List (Except String Nat)) :
    ((completionAux txId sig ver b rs).2 = some () ↔ rs.any updTerminal = true) := by
  induction rs generalizing b with
  | nil => simp [completionAux]
  | cons r rest ih =>
    match r with
    | .ok v => simp [completionAux, updTerminal]
    | .error e =>
      by_cases hc : isConflictErrorStr e
      · simp [completionAux, updTerminal, hc]
      · simp only [completionAux, hc, if_false, List.any_cons, updTerminal,
          Bool.false_or]
        exact ih (min (b * 2) 60)

theorem min_pow_double (j : Nat) : min (min (2 ^ j) 60 * 2) 60 = min (2 ^ (j + 1)) 60 := by
  rcases le_or_lt (2 ^ j) 60 with h | h
  · rw [Nat.min_eq_left h, pow_succ]
  · have h2 : 2 ^ j ≤ 2 ^ (j + 1) := Nat.pow_le_pow_right (by omega) (by omega)
    rw [Nat.min_eq_right (le_of_lt h), Nat.min_eq_right (by omega)]
    omega

theorem completionAux_sleeps (txId : Nat) (sig : String) (ver : Nat)
    (rs : List (Except String Nat)) :
    ∀ j : Nat,
      (completionAux txId sig ver (min (2 ^ j) 60) rs).1.filterMap evSleep =
        (List.range ((rs.takeWhile (fun r => !updTerminal r)).length)).map
          (fun n => min (2 ^ (j + n)) 60) := by
  induction rs with
  | nil => intro j; simp [completionAux]
  | cons r rest ih =>
    intro j
    match r with
    | .ok v => simp [completionAux, updTerminal, List.takeWhile_cons, evSleep]
    | .error e =>
      by_cases hc : isConflictErrorStr e
      · simp [completionAux, updTerminal, List.takeWhile_cons, hc, evSleep]
      · have hhead : ((fun r => !updTerminal r) (Except.error e)) = true := by
          simp [updTerminal, hc]
        rw [completionAux, if_neg hc, min_pow_double j, List.takeWhile_cons, if_pos hhead,
          List.length_cons]
        have htail := ih (j + 1)
        simp only [List.filterMap_cons, evSleep]
        rw [htail]
        rw [List.range_succ_eq_map]
        simp only [List.map_cons, List.map_map, Nat.add_zero]
        have hfun : ((fun n => 2 ^ (j + n) ⊓ 60) ∘ Nat.succ) =
            (fun n : Nat => 2 ^ (j + 1 + n) ⊓ 60) := by
          funext n
          simp only [Function.comp_apply]
          have hexp : j + n.succ = j + 1 + n := by omega
          rw [hexp]
        rw [hfun]

theorem completionAux_callCount (txId : Nat) (sig : String) (ver : Nat) (b : Nat)
    (rs : List (Except String Nat)) :
    ((completionAux txId sig ver b rs).1.filterMap evUpdate).length =
      min ((rs.takeWhile (fun r => !updTerminal r)).length + 1) rs.length := by
  induction rs generalizing b with
  | nil => simp [completionAux]
  | cons r rest ih =>
    match r with
    | .ok v => simp [completionAux, updTerminal, List.takeWhile_cons, evUpdate]
    | .error e =>
      by_cases hc : isConflictErrorStr e
      · simp [completionAux, updTerminal, List.takeWhile_cons, hc, evUpdate]
      · have hhead : ((fun r => !updTerminal r) (Except.error e)) = true := by
          simp [updTerminal, hc]
        rw [completionAux, if_neg hc, List.takeWhile_cons, if_pos hhead]
        simp only [List.filterMap_cons, evUpdate, List.length_cons]
        rw [ih (min (b * 2) 60)]
        omega

/-- C1: every call of the critical completion loop is
`UpdateStatus(id, SettlementComplete, signature, expected_version)`; the loop
returns (necessarily with success — the loop body has no error exit) exactly
when some attempt succeeds or fails with a `409`/version-conflict error, and
otherwise keeps retrying; the sleep after the `n`-th failed attempt (counting
from 0) is `min(2^n, 60)` seconds, i.e. 1s, 2s, 4s, ... doubling and capped at
60s; the number of calls made is one more than the number of leading
non-conflict failures, bounded by the responses observed. -/
theorem update_settlement_complete_with_retry_spec (txId : Nat) (sig : String)
    (ver : Nat) (rs : List (Except String Nat)) :
    (∀ c, WorkerEvent.update c ∈ (updateSettlementCompleteWithRetry txId sig ver rs).1 →
      c = completionCall txId sig ver) ∧
    ((updateSettlementCompleteWithRetry txId sig ver rs).2 = some () ↔
      rs.any updTerminal = true) ∧
    ((updateSettlementCompleteWithRetry txId sig ver rs).1.filterMap evSleep =
      (List.range ((rs.takeWhile (fun r => !updTerminal r)).length)).map
        (fun n => min (2 ^ n) 60)) ∧
    ((updateSettlementCompleteWithRetry txId sig ver rs).1.filterMap evUpdate).length =
      min ((rs.takeWhile (fun r => !updTerminal r)).length + 1) rs.length := by
  refine ⟨?_, ?_, ?_, ?_⟩
  · intro c hc
    rcases completionAux_events txId sig ver 1 rs _ hc with h | ⟨n, h⟩
    · cases h; rfl
    · cases h
  · exact completionAux_result txId sig ver 1 rs
  · have h := completionAux_sleeps txId sig ver rs 0
    simpa [updateSettlementCompleteWithRetry] using h
  · exact completionAux_callCount txId sig ver 1 rs

/-! ## C9: idempotency skip in `process_settlement` -/

/-- C9: when the fetched settlement already carries a chain signature,
`process_settlement` performs no on-chain submission and no `SubmittedToSolana`
update: every external call it makes is the critical-completion update carrying
that signature and the settlement's current, unincremented version. -/
theorem process_settlement_idempotent_skip (game : GameSettlementInfo)
    (updates : List (Except String Nat)) (submitRes : Except String String)
    (nowMs : Int) (sig : String) (hsig : game.solanaTxId = some sig) :
    (∀ b, WorkerEvent.submit b ∉ (processSettlement game updates submitRes nowMs).1) ∧
    (∀ c, WorkerEvent.update c ∈ (processSettlement game updates submitRes nowMs).1 →
      c = completionCall game.transactionId sig game.version) ∧
    (∀ c, WorkerEvent.update c ∈ (processSettlement game updates submitRes nowMs).1 →
      c.status ≠ "SubmittedToSolana" ∧ c.expectedVersion = game.version) := by
  have hred : (processSettlement game updates submitRes nowMs).1 =
      (updateSettlementCompleteWithRetry game.transactionId sig game.version updates).1 := by
    simp [processSettlement, hsig]
  refine ⟨?_, ?_, ?_⟩
  · intro b hb
    rw [hred] at hb
    rcases completionAux_events game.transactionId sig game.version 1 updates _ hb with
      h | ⟨n, h⟩ <;> cases h
  · intro c hc
    rw [hred] at hc
    rcases completionAux_events game.transactionId sig game.version 1 updates _ hc with
      h | ⟨n, h⟩
    · cases h; rfl
    · cases h
  · intro c hc
    rw [hred] at hc
    rcases completionAux_events game.transactionId sig game.version 1 updates _ hc with
      h | ⟨n, h⟩
    · cases h
      exact ⟨by simp [completionCall], rfl⟩
    · cases h

/-- Witness for C9 (boundary scenario S6): a settlement carrying
`solana_tx_id = "sig123"` at version 4 only issues completion updates with that
signature and version 4. -/
theorem process_settlement_idempotent_skip_witness :
    (∀ b, WorkerEvent.submit b ∉
      (processSettlement
        { transactionId := 7, playerAddress := "p", gameType := "coinflip",
          betAmount := 5, token := "SOL", outcome := "Win", payout := 10,
          vrfProof := "", vrfOutput := "", blockHeight := 1, version := 4,
          solanaTxId := some "sig123", retryCount := 0, nextRetryAfter := none,
          allowancePda := none }
        [Except.error "HTTP 503", Except.ok 5] (Except.ok "sigNew") 0).1) ∧
    (∀ c, WorkerEvent.update c ∈
      (processSettlement
        { transactionId := 7, playerAddress := "p", gameType := "coinflip",
          betAmount := 5, token := "SOL", outcome := "Win", payout := 10,
          vrfProof := "", vrfOutput := "", blockHeight := 1, version := 4,
          solanaTxId := some "sig123", retryCount := 0, nextRetryAfter := none,
          allowancePda := none }
        [Except.error "HTTP 503", Except.ok 5] (Except.ok "sigNew") 0).1 →
      c = completionCall 7 "sig123" 4) := by
  have h := process_settlement_idempotent_skip
    { transactionId := 7, playerAddress := "p", gameType := "coinflip",
      betAmount := 5, token := "SOL", outcome := "Win", payout := 10,
      vrfProof := "", vrfOutput := "", blockHeight := 1, version := 4,
      solanaTxId := some "sig123", retryCount := 0, nextRetryAfter := none,
      allowancePda := none }
    [Except.error "HTTP 503", Except.ok 5] (Except.ok "sigNew") 0 "sig123" rfl
  exact ⟨h.1, h.2.1⟩

/-! ## C8: `fetch_pending_settlements` retry policy -/

/-- Whether a fetch attempt fails (as seen by the retry loop). -/
def exceptFails : Except String (List GameSettlementInfo) → Bool
  | .ok _ => false
  | .error _ => true

/-- Whether the `(n+1)`-th attempt against the given environment fails. -/
def fetchAttemptFails (outs : Nat → FetchOutcome) (n : Nat) : Bool :=
  exceptFails (fetchPendingOnce (outs n))

/-- C8 counterexample: a 400 response on the first attempt is retried — the
second attempt's success is returned after one 1-second sleep, whereas the
claim requires the 4xx error to be returned immediately with no further
attempt. -/
theorem fetch_pending_4xx_cex :
    (fetchPendingSettlements (fun n =>
      if n = 0 then FetchOutcome.httpResponse 400 "bad request" none
      else FetchOutcome.httpResponse 200 "ok" (some []))).attempts = 2 ∧
    (fetchPendingSettlements (fun n =>
      if n = 0 then FetchOutcome.httpResponse 400 "bad request" none
      else FetchOutcome.httpResponse 200 "ok" (some []))).result = Except.ok [] ∧
    (fetchPendingSettlements (fun n =>
      if n = 0 then FetchOutcome.httpResponse 400 "bad request" none
      else FetchOutcome.httpResponse 200 "ok" (some []))).sleepsMs = [1000] := by
  exact ⟨rfl, rfl, rfl⟩

/-- C8 (amended): `fetch_pending_settlements` makes at most 3 attempts and
sleeps `2^(n-1)` seconds after the `n`-th failed attempt, but it retries on
EVERY error — client errors (4xx) included; the value returned is the first
success among the first three attempts, or the retries-exhausted error after
three failures of any kind. -/
theorem fetch_pending_retry_spec (outs : Nat → FetchOutcome) :
    (fetchPendingSettlements outs).attempts =
      min (((List.range fetchMaxRetries).takeWhile (fetchAttemptFails outs)).length + 1)
        fetchMaxRetries ∧
    (fetchPendingSettlements outs).sleepsMs =
      (List.range
        (min (((List.range fetchMaxRetries).takeWhile (fetchAttemptFails outs)).length) 2)).map
        (fun n => 2 ^ n * 1000) ∧
    ((((List.range fetchMaxRetries).takeWhile (fetchAttemptFails outs)).length) <
        fetchMaxRetries →
      (fetchPendingSettlements outs).result =
        fetchPendingOnce
          (outs (((List.range fetchMaxRetries).takeWhile (fetchAttemptFails outs)).length))) ∧
    ((((List.range fetchMaxRetries).takeWhile (fetchAttemptFails outs)).length) =
        fetchMaxRetries →
      (fetchPendingSettlements outs).result =
        Except.error "Failed to fetch pending settlements after retries") := by
  have hrange : List.range fetchMaxRetries = [0, 1, 2] := rfl
  rcases hr0 : fetchPendingOnce (outs 0) with e0 | v0
  · rcases hr1 : fetchPendingOnce (outs 1) with e1 | v1
    · rcases hr2 : fetchPendingOnce (outs 2) with e2 | v2
      · have hk : ((List.range fetchMaxRetries).takeWhile (fetchAttemptFails outs)).length = 3 := by
          rw [hrange]
          simp [List.takeWhile_cons, fetchAttemptFails, hr0, hr1, hr2, exceptFails]
        rw [hk]
        refine ⟨?_, ?_, by intro h; simp [fetchMaxRetries] at h, fun _ => ?_⟩
        · simp [fetchPendingSettlements, fetchPendingLoop, hr0, hr1, hr2, fetchMaxRetries]
        · simp [fetchPendingSettlements, fetchPendingLoop, hr0, hr1, hr2, fetchMaxRetries]
          decide
        · simp [fetchPendingSettlements, fetchPendingLoop, hr0, hr1, hr2, fetchMaxRetries]
      · have hk : ((List.range fetchMaxRetries).takeWhile (fetchAttemptFails outs)).length = 2 := by
          rw [hrange]
          simp [List.takeWhile_cons, fetchAttemptFails, hr0, hr1, hr2, exceptFails]
        rw [hk]
        refine ⟨?_, ?_, fun _ => ?_, by intro h; simp [fetchMaxRetries] at h⟩
        · simp [fetchPendingSettlements, fetchPendingLoop, hr0, hr1, hr2, fetchMaxRetries]
        · simp [fetchPendingSettlements, fetchPendingLoop, hr0, hr1, hr2, fetchMaxRetries]
          decide
        · rw [hr2]
          simp [fetchPendingSettlements, fetchPendingLoop, hr0, hr1, hr2, fetchMaxRetries]
    · have hk : ((List.range fetchMaxRetries).takeWhile (fetchAttemptFails outs)).length = 1 := by
        rw [hrange]
        simp [List.takeWhile_cons, fetchAttemptFails, hr0, hr1, exceptFails]
      rw [hk]
      refine ⟨?_, ?_, fun _ => ?_, by intro h; simp [fetchMaxRetries] at h⟩
      · simp [fetchPendingSettlements, fetchPendingLoop, hr0, hr1, fetchMaxRetries]
      · simp [fetchPendingSettlements, fetchPendingLoop, hr0, hr1, fetchMaxRetries]
        decide
      · rw [hr1]
        simp [fetchPendingSettlements, fetchPendingLoop, hr0, hr1, fetchMaxRetries]
  · have hk : ((List.range fetchMaxRetries).takeWhile (fetchAttemptFails outs)).length = 0 := by
      rw [hrange]
      simp [List.takeWhile_cons, fetchAttemptFails, hr0, exceptFails]
    rw [hk]
    refine ⟨?_, ?_, fun _ => ?_, by intro h; simp [fetchMaxRetries] at h⟩
    · simp [fetchPendingSettlements, fetchPendingLoop, hr0, fetchMaxRetries]
    · simp [fetchPendingSettlements, fetchPendingLoop, hr0, fetchMaxRetries]
    · rw [hr0]
      simp [fetchPendingSettlements, fetchPendingLoop, hr0, fetchMaxRetries]

/-! ## Store projection lemmas -/

theorem bets_setBet_self (s : Store) (id : String) (r : BetRecord) :
    (setBet s id r).bets id = some r := by
  simp [setBet]

theorem bets_setBet_ne (s : Store) (id k : String) (r : BetRecord) (h : k ≠ id) :
    (setBet s id r).bets k = s.bets k := by
  simp [setBet, h]

theorem getBet_setBet_self (s : Store) (id : String) (r : BetRecord) :
    getBet (setBet s id r) id = r := by
  simp [getBet, bets_setBet_self]

theorem hgetStatus_setBet_self (s : Store) (id : String) (r : BetRecord) :
    hgetStatus (setBet s id r) id = r.status := by
  simp [hgetStatus, bets_setBet_self]

theorem hgetRetryCount_setBet_self (s : Store) (id : String) (r : BetRecord) :
    hgetRetryCount (setBet s id r) id = r.retryCount := by
  simp [hgetRetryCount, bets_setBet_self]

theorem hgetVersion_setBet_self (s : Store) (id : String) (r : BetRecord) :
    hgetVersion (setBet s id r) id = r.version := by
  simp [hgetVersion, bets_setBet_self]

theorem hgetNextAttempt_setBet_self (s : Store) (id : String) (r : BetRecord) :
    hgetNextAttempt (setBet s id r) id = r.nextAttemptAtMs := by
  simp [hgetNextAttempt, bets_setBet_self]

/-! ## C2: the retryable-failure script with default policy -/

theorem clampI64_eq_self {x : Int} (hlo : i64Min ≤ x) (hhi : x ≤ i64Max) :
    clampI64 x = x := by
  unfold clampI64
  rw [min_eq_left hhi, max_eq_left hlo]

theorem backoff_clamp_eq (m : Nat) :
    min (clampI64 (2000 * clampI64 ((2 : Int) ^ m))) 60000 =
      min (2000 * (2 : Int) ^ m) 60000 := by
  have h0 : (0 : Int) < 2 ^ m := by positivity
  by_cases hm : m ≤ 4
  · have h16 : (2 : Int) ^ m ≤ 16 := by
      calc (2 : Int) ^ m ≤ 2 ^ 4 := pow_le_pow_right₀ (by norm_num) hm
        _ = 16 := by norm_num
    have hinner : clampI64 ((2 : Int) ^ m) = 2 ^ m :=
      clampI64_eq_self (by unfold i64Min; omega) (by unfold i64Max; omega)
    rw [hinner]
    have houter : clampI64 (2000 * (2 : Int) ^ m) = 2000 * 2 ^ m :=
      clampI64_eq_self (by unfold i64Min; omega) (by unfold i64Max; omega)
    rw [houter]
  · have h32 : (32 : Int) ≤ 2 ^ m := by
      calc (32 : Int) = 2 ^ 5 := by norm_num
        _ ≤ 2 ^ m := pow_le_pow_right₀ (by norm_num) (by omega)
    have hlhs : (60000 : Int) ≤ clampI64 (2000 * clampI64 ((2 : Int) ^ m)) := by
      unfold clampI64 i64Max i64Min
      generalize (2 : Int) ^ m = X at h0 h32
      omega
    rw [min_eq_right hlhs, min_eq_right (by nlinarith)]

/-- `compute_backoff_ms` at the default policy equals the spec formula
`min(BASE * 2^c, MAX)` for the pre-increment retry count `c ≥ 0`. -/
theorem computeBackoffMs_default (c : Int) (h : 0 ≤ c) :
    computeBackoffMs defaultBackoffBaseMs defaultBackoffMaxMs (c + 1) =
      min (2000 * 2 ^ c.toNat) 60000 := by
  unfold computeBackoffMs defaultBackoffBaseMs defaultBackoffMaxMs
  have hk : max (c + 1) 1 = c + 1 := by omega
  rw [hk]
  show min (clampI64 (2000 * clampI64 (2 ^ (c + 1 - 1).toNat))) 60000 =
    min (2000 * 2 ^ c.toNat) 60000
  have hc1 : (c + 1 - 1).toNat = c.toNat := by omega
  rw [hc1]
  exact backoff_clamp_eq c.toNat

/-- Behaviour of `FAIL_RETRYABLE_SCRIPT` for any policy parameters. -/
theorem failRetryableScript_spec (s : Store) (id : String) (nowMs maxR backoff : Int) :
    hgetRetryCount (failRetryableScript s id nowMs maxR backoff).1 id =
      hgetRetryCount s id + 1 ∧
    (hgetRetryCount s id + 1 > maxR →
      hgetStatus (failRetryableScript s id nowMs maxR backoff).1 id = "failed_manual_review" ∧
      zmem (failRetryableScript s id nowMs maxR backoff).1.claimable id = false ∧
      zmem (failRetryableScript s id nowMs maxR backoff).1.processing id = false ∧
      (failRetryableScript s id nowMs maxR backoff).2 =
        ("failed_manual_review", hgetRetryCount s id + 1)) ∧
    (¬ hgetRetryCount s id + 1 > maxR →
      hgetStatus (failRetryableScript s id nowMs maxR backoff).1 id = "failed_retryable" ∧
      hgetNextAttempt (failRetryableScript s id nowMs maxR backoff).1 id = nowMs + backoff ∧
      zscore (failRetryableScript s id nowMs maxR backoff).1.claimable id =
        some (nowMs + backoff) ∧
      zmem (failRetryableScript s id nowMs maxR backoff).1.processing id = false ∧
      (failRetryableScript s id nowMs maxR backoff).2 =
        ("failed_retryable", hgetRetryCount s id + 1)) := by
  by_cases hover : hgetRetryCount s id + 1 > maxR
  · have hred : failRetryableScript s id nowMs maxR backoff =
        (let s1 := setBet s id
          { getBet s id with retryCount := hgetRetryCount s id + 1, solanaTxId := "" }
         let s2 := setBet s1 id { getBet s1 id with status := "failed_manual_review" }
         ({ s2 with claimable := zrem s2.claimable id, processing := zrem s2.processing id },
          ("failed_manual_review", hgetRetryCount s id + 1))) := by
      rw [failRetryableScript]
      simp only [if_pos hover]
    rw [hred]
    refine ⟨?_, fun _ => ⟨?_, ?_, ?_, rfl⟩, fun hn => absurd hover hn⟩
    · simp [hgetRetryCount, getBet, setBet]
    · simp [hgetStatus, getBet, setBet]
    · exact zmem_zrem_self _ _
    · exact zmem_zrem_self _ _
  · have hred : failRetryableScript s id nowMs maxR backoff =
        (let s1 := setBet s id
          { getBet s id with retryCount := hgetRetryCount s id + 1, solanaTxId := "" }
         let s2 := setBet s1 id
          { getBet s1 id with
            status := "failed_retryable",
            nextAttemptAtMs := nowMs + backoff }
         ({ s2 with
            claimable := zadd s2.claimable (nowMs + backoff) id,
            processing := zrem s2.processing id },
          ("failed_retryable", hgetRetryCount s id + 1))) := by
      rw [failRetryableScript]
      simp only [if_neg hover]
    rw [hred]
    refine ⟨?_, fun h => absurd h hover, fun _ => ⟨?_, ?_, ?_, ?_, rfl⟩⟩
    · simp [hgetRetryCount, getBet, setBet]
    · simp [hgetStatus, getBet, setBet]
    · simp [hgetNextAttempt, getBet, setBet]
    · exact zscore_zadd_self _ _ _
    · exact zmem_zrem_self _ _

/-- C2: `UpdateStatus(id, FailedRetryable, _)` under the default policy
(`MAX_RETRIES = 5`, base 2000 ms, cap 60000 ms): the stored retry count `c` is
incremented; when `c + 1 > 5` the bet goes to `failed_manual_review` and leaves
both indexes; otherwise it goes to `failed_retryable` with
`next_attempt_at_ms = now + min(2000 * 2^c, 60000)`, is re-added to `claimable`
with that score, and removed from `processing`. -/
theorem update_status_fail_retryable_spec (s : Store) (id : String) (tx : Option String)
    (nowMs : Int) (c : Int) (hc : hgetRetryCount s id = c) (h0 : 0 ≤ c) :
    hgetRetryCount (updateStatus s id .failedRetryable tx nowMs defaultMaxRetries
      defaultBackoffBaseMs defaultBackoffMaxMs) id = c + 1 ∧
    (c + 1 > 5 →
      hgetStatus (updateStatus s id .failedRetryable tx nowMs defaultMaxRetries
        defaultBackoffBaseMs defaultBackoffMaxMs) id = "failed_manual_review" ∧
      zmem (updateStatus s id .failedRetryable tx nowMs defaultMaxRetries
        defaultBackoffBaseMs defaultBackoffMaxMs).claimable id = false ∧
      zmem (updateStatus s id .failedRetryable tx nowMs defaultMaxRetries
        defaultBackoffBaseMs defaultBackoffMaxMs).processing id = false) ∧
    (c + 1 ≤ 5 →
      hgetStatus (updateStatus s id .failedRetryable tx nowMs defaultMaxRetries
        defaultBackoffBaseMs defaultBackoffMaxMs) id = "failed_retryable" ∧
      hgetNextAttempt (updateStatus s id .failedRetryable tx nowMs defaultMaxRetries
        defaultBackoffBaseMs defaultBackoffMaxMs) id =
        nowMs + min (2000 * 2 ^ c.toNat) 60000 ∧
      zscore (updateStatus s id .failedRetryable tx nowMs defaultMaxRetries
        defaultBackoffBaseMs defaultBackoffMaxMs).claimable id =
        some (nowMs + min (2000 * 2 ^ c.toNat) 60000) ∧
      zmem (updateStatus s id .failedRetryable tx nowMs defaultMaxRetries
        defaultBackoffBaseMs defaultBackoffMaxMs).processing id = false) := by
  have hupd : updateStatus s id .failedRetryable tx nowMs defaultMaxRetries
      defaultBackoffBaseMs defaultBackoffMaxMs =
      (failRetryableScript s id nowMs defaultMaxRetries
        (computeBackoffMs defaultBackoffBaseMs defaultBackoffMaxMs
          (hgetRetryCount s id + 1))).1 := rfl
  have hbo : computeBackoffMs defaultBackoffBaseMs defaultBackoffMaxMs
      (hgetRetryCount s id + 1) = min (2000 * 2 ^ c.toNat) 60000 := by
    rw [hc]
    exact computeBackoffMs_default c h0
  obtain ⟨h1, h2, h3⟩ := failRetryableScript_spec s id nowMs defaultMaxRetries
    (computeBackoffMs defaultBackoffBaseMs defaultBackoffMaxMs (hgetRetryCount s id + 1))
  rw [hupd]
  refine ⟨by rw [h1, hc], ?_, ?_⟩
  · intro hgt
    obtain ⟨ha, hb, hcc, _⟩ := h2 (by rw [hc]; simpa [defaultMaxRetries] using hgt)
    exact ⟨ha, hb, hcc⟩
  · intro hle
    obtain ⟨ha, hb, hcc, hd, _⟩ := h3 (by rw [hc]; simp [defaultMaxRetries]; omega)
    exact ⟨ha, by rw [hb, hbo], by rw [hcc, hbo], hd⟩

/-- Witness for C2 (boundary scenario S3): a bet whose stored retry count is 4
retried at time 1000 gets status `failed_retryable`, retry count 5, and a
claimable score of `1000 + min(2000 * 16, 60000) = 33000`. -/
theorem update_status_fail_retryable_spec_witness :
    hgetRetryCount (updateStatus
      (setBet Store.empty "b" { BetRecord.empty with retryCount := 4 }) "b"
      .failedRetryable none 1000 defaultMaxRetries defaultBackoffBaseMs
      defaultBackoffMaxMs) "b" = 5 ∧
    hgetStatus (updateStatus
      (setBet Store.empty "b" { BetRecord.empty with retryCount := 4 }) "b"
      .failedRetryable none 1000 defaultMaxRetries defaultBackoffBaseMs
      defaultBackoffMaxMs) "b" = "failed_retryable" ∧
    zscore (updateStatus
      (setBet Store.empty "b" { BetRecord.empty with retryCount := 4 }) "b"
      .failedRetryable none 1000 defaultMaxRetries defaultBackoffBaseMs
      defaultBackoffMaxMs).claimable "b" = some 33000 := by
  have h := update_status_fail_retryable_spec
    (setBet Store.empty "b" { BetRecord.empty with retryCount := 4 }) "b" none 1000 4
    (by rw [hgetRetryCount_setBet_self]) (by norm_num)
  obtain ⟨h1, _, h3⟩ := h
  obtain ⟨ha, _, hcc, _⟩ := h3 (by norm_num)
  refine ⟨by simpa using h1, ha, ?_⟩
  rw [hcc]
  decide

/-! ## C5: the claim script -/

instance : IsTrans (String × Int) entryLE where
  trans a b c hab hbc := by
    rcases hab with h1 | ⟨h1, h1s⟩ <;> rcases hbc with h2 | ⟨h2, h2s⟩
    · exact Or.inl (lt_trans h1 h2)
    · exact Or.inl (h2 ▸ h1)
    · exact Or.inl (h1 ▸ h2)
    · exact Or.inr ⟨h1.trans h2, le_trans h1s h2s⟩

instance : IsTotal (String × Int) entryLE where
  total a b := by
    rcases lt_trichotomy a.2 b.2 with h | h | h
    · exact Or.inl (Or.inl h)
    · rcases le_total a.1 b.1 with hs | hs
      · exact Or.inl (Or.inr ⟨h, hs⟩)
      · exact Or.inr (Or.inr ⟨h.symm, hs⟩)
    · exact Or.inr (Or.inl h)

theorem zmem_eq_zscore_isSome (z : ZSet) (k : String) :
    zmem z k = (zscore z k).isSome := by
  induction z with
  | nil => rfl
  | cons e t ih =>
    cases he : (e.1 == k) with
    | true =>
      rw [zmem, List.any_cons, he, Bool.true_or, zscore,
        List.find?_cons_of_pos (p := fun e : String × Int => e.1 == k) _ he]
      rfl
    | false =>
      rw [zmem, List.any_cons, he, Bool.false_or, zscore,
        List.find?_cons_of_neg (p := fun e : String × Int => e.1 == k) _ (by simp [he])]
      exact ih

theorem claim_fold_untouched (b p : String) (es : List (String × Int)) :
    ∀ (st : Store) (acc : List String) (k : String), k ∉ es.map Prod.fst →
      (es.foldl (claimEntryStep b p) (st, acc)).1.bets k = st.bets k ∧
      zscore (es.foldl (claimEntryStep b p) (st, acc)).1.claimable k =
        zscore st.claimable k ∧
      zscore (es.foldl (claimEntryStep b p) (st, acc)).1.processing k =
        zscore st.processing k := by
  induction es with
  | nil => intro st acc k _; exact ⟨rfl, rfl, rfl⟩
  | cons e rest ih =>
    intro st acc k hk
    simp only [List.map_cons, List.mem_cons] at hk
    push_neg at hk
    obtain ⟨hke, hkr⟩ := hk
    rw [List.foldl_cons]
    have hstep : claimEntryStep b p (st, acc) e =
        ((claimEntryStep b p (st, acc) e).1, acc ++ [e.1]) := by
      simp [claimEntryStep]
    rw [hstep]
    obtain ⟨h1, h2, h3⟩ := ih (claimEntryStep b p (st, acc) e).1 (acc ++ [e.1]) k hkr
    refine ⟨?_, ?_, ?_⟩
    · rw [h1]
      simp only [claimEntryStep]
      rw [bets_setBet_ne _ _ _ _ hke]
    · rw [h2]
      simp only [claimEntryStep]
      exact zscore_zrem_of_ne _ _ _ hke
    · rw [h3]
      simp only [claimEntryStep]
      exact zscore_zadd_of_ne _ _ _ _ hke

theorem claim_fold_claimed (b p : String) (es : List (String × Int)) :
    ∀ (st : Store) (acc : List String), (es.map Prod.fst).Nodup →
      ∀ id sc, (id, sc) ∈ es →
      (∃ r, (es.foldl (claimEntryStep b p) (st, acc)).1.bets id = some r ∧
        r.status = "batched" ∧ r.externalBatchId = b ∧ r.processorId = p) ∧
      zscore (es.foldl (claimEntryStep b p) (st, acc)).1.processing id = some sc ∧
      zmem (es.foldl (claimEntryStep b p) (st, acc)).1.claimable id = false := by
  induction es with
  | nil => intro st acc _ id sc hmem; simp at hmem
  | cons e rest ih =>
    intro st acc hnd id sc hmem
    simp only [List.map_cons, List.nodup_cons] at hnd
    rw [List.foldl_cons]
    have hstep : claimEntryStep b p (st, acc) e =
        ((claimEntryStep b p (st, acc) e).1, acc ++ [e.1]) := by
      simp [claimEntryStep]
    rw [hstep]
    rcases List.mem_cons.mp hmem with he | hrest
    · subst he
      have hnotin : id ∉ rest.map Prod.fst := hnd.1
      obtain ⟨h1, h2, h3⟩ :=
        claim_fold_untouched b p rest (claimEntryStep b p (st, acc) (id, sc)).1
          (acc ++ [(id, sc).1]) id hnotin
      refine ⟨?_, ?_, ?_⟩
      · rw [h1]
        simp only [claimEntryStep]
        rw [bets_setBet_self]
        exact ⟨_, rfl, rfl, rfl, rfl⟩
      · rw [h3]
        simp only [claimEntryStep]
        exact zscore_zadd_self _ _ _
      · rw [zmem_eq_zscore_isSome, h2]
        have hnone : zscore (claimEntryStep b p (st, acc) (id, sc)).1.claimable id = none :=
          zscore_zrem_self st.claimable id
        rw [hnone]
        rfl
    · exact ih (claimEntryStep b p (st, acc) e).1 (acc ++ [e.1]) hnd.2 id sc hrest

theorem entries_mem_filter (z : ZSet) (now : Int) (limit : Nat) (e : String × Int)
    (he : e ∈ zrangebyscoreLimited z now limit) :
    e ∈ z.filter (fun e => e.2 ≤ now) := by
  have h1 : e ∈ List.insertionSort entryLE (z.filter (fun e => e.2 ≤ now)) :=
    (List.take_sublist _ _).mem he
  exact (List.perm_insertionSort entryLE _).mem_iff.mp h1

theorem entries_nodup_keys (z : ZSet) (now : Int) (limit : Nat)
    (hnd : (z.map Prod.fst).Nodup) :
    ((zrangebyscoreLimited z now limit).map Prod.fst).Nodup := by
  have hf : ((z.filter (fun e => e.2 ≤ now)).map Prod.fst).Nodup :=
    ((List.filter_sublist _).map Prod.fst).nodup hnd
  have hs : ((List.insertionSort entryLE (z.filter (fun e => e.2 ≤ now))).map
      Prod.fst).Nodup :=
    (((List.perm_insertionSort entryLE _).map Prod.fst).nodup_iff).mpr hf
  exact ((List.take_sublist _ _).map Prod.fst).nodup hs

/-- C5: `ClaimPending` claims exactly the due entries (`score ≤ now`), at most
`limit` of them, the minimal ones in `ZRANGEBYSCORE` order: each claimed id
moves from `claimable` to `processing` keeping its original score and its hash
gets status `batched`, the fresh batch id and the worker id; every entry not
claimed (in particular every entry with score `> now`) is untouched; and when
no entry is due the store is returned unchanged with an empty id list. -/
theorem claim_pending_spec (s : Store) (limit : Nat) (batchId pid : String) (now : Int)
    (hnd : (s.claimable.map Prod.fst).Nodup) :
    (claimPendingScript s limit batchId pid now).2.length =
      min limit (s.claimable.filter (fun e => e.2 ≤ now)).length ∧
    (∀ id ∈ (claimPendingScript s limit batchId pid now).2,
      ∃ sc, zscore s.claimable id = some sc ∧ sc ≤ now ∧
        zscore (claimPendingScript s limit batchId pid now).1.processing id = some sc ∧
        zmem (claimPendingScript s limit batchId pid now).1.claimable id = false ∧
        ∃ r, (claimPendingScript s limit batchId pid now).1.bets id = some r ∧
          r.status = "batched" ∧ r.externalBatchId = batchId ∧ r.processorId = pid) ∧
    (∀ id sc, (id, sc) ∈ s.claimable →
      id ∉ (claimPendingScript s limit batchId pid now).2 →
      (claimPendingScript s limit batchId pid now).1.bets id = s.bets id ∧
      zscore (claimPendingScript s limit batchId pid now).1.claimable id = some sc ∧
      zscore (claimPendingScript s limit batchId pid now).1.processing id =
        zscore s.processing id) ∧
    List.Pairwise (fun a c => ∀ sa sc, zscore s.claimable a = some sa →
      zscore s.claimable c = some sc → entryLE (a, sa) (c, sc))
      (claimPendingScript s limit batchId pid now).2 ∧
    (∀ id ∈ (claimPendingScript s limit batchId pid now).2, ∀ id2 sc2 sc,
      (id2, sc2) ∈ s.claimable → sc2 ≤ now →
      id2 ∉ (claimPendingScript s limit batchId pid now).2 →
      zscore s.claimable id = some sc → entryLE (id, sc) (id2, sc2)) ∧
    (s.claimable.filter (fun e => e.2 ≤ now) = [] →
      claimPendingScript s limit batchId pid now = (s, [])) := by
  have hids : (claimPendingScript s limit batchId pid now).2 =
      (zrangebyscoreLimited s.claimable now limit).map Prod.fst := by
    rw [claimPendingScript, claim_foldl_snd]
    rfl
  have hnde : ((zrangebyscoreLimited s.claimable now limit).map Prod.fst).Nodup :=
    entries_nodup_keys s.claimable now limit hnd
  have hmemz : ∀ e : String × Int, e ∈ zrangebyscoreLimited s.claimable now limit →
      zscore s.claimable e.1 = some e.2 ∧ e.2 ≤ now := by
    intro e he
    have hf := entries_mem_filter s.claimable now limit e he
    have hcl : e ∈ s.claimable := List.mem_of_mem_filter hf
    have hdue : e.2 ≤ now := by
      have := List.of_mem_filter hf
      simpa using this
    exact ⟨zscore_eq_some_of_mem s.claimable e.1 e.2 hnd (by
      cases e
      exact hcl), hdue⟩
  refine ⟨?_, ?_, ?_, ?_, ?_, ?_⟩
  · rw [hids, List.length_map, zrangebyscoreLimited, List.length_take,
      (List.perm_insertionSort entryLE _).length_eq]
  · intro id hid
    rw [hids] at hid
    obtain ⟨e, he, heid⟩ := List.mem_map.mp hid
    obtain ⟨hz, hdue⟩ := hmemz e he
    obtain ⟨hrec, hproc, hclm⟩ := claim_fold_claimed batchId pid
      (zrangebyscoreLimited s.claimable now limit) s [] hnde e.1 e.2 (by
        cases e
        exact he)
    rw [heid] at hz hrec hproc hclm
    exact ⟨e.2, hz, hdue, by rw [claimPendingScript]; exact hproc,
      by rw [claimPendingScript]; exact hclm,
      by rw [claimPendingScript]; exact hrec⟩
  · intro id sc hmem hnotin
    rw [hids] at hnotin
    obtain ⟨h1, h2, h3⟩ := claim_fold_untouched batchId pid
      (zrangebyscoreLimited s.claimable now limit) s [] id hnotin
    rw [claimPendingScript]
    refine ⟨h1, ?_, h3⟩
    rw [h2]
    exact zscore_eq_some_of_mem s.claimable id sc hnd hmem
  · rw [hids]
    have hsorted : List.Pairwise entryLE (zrangebyscoreLimited s.claimable now limit) :=
      List.Pairwise.sublist (List.take_sublist _ _) (List.sorted_insertionSort entryLE _)
    rw [List.pairwise_map]
    refine hsorted.imp_of_mem ?_
    intro a c ha hc hle sa sc hsa hsc
    obtain ⟨hza, _⟩ := hmemz a ha
    obtain ⟨hzc, _⟩ := hmemz c hc
    have hsa2 : sa = a.2 := by
      rw [hza] at hsa
      exact (Option.some_injective _ hsa).symm
    have hsc2 : sc = c.2 := by
      rw [hzc] at hsc
      exact (Option.some_injective _ hsc).symm
    rw [hsa2, hsc2]
    exact hle
  · intro id hid id2 sc2 sc hmem2 hdue2 hnotin2 hzid
    rw [hids] at hid hnotin2
    obtain ⟨e, he, heid⟩ := List.mem_map.mp hid
    have hf2 : (id2, sc2) ∈ s.claimable.filter (fun e => e.2 ≤ now) :=
      List.mem_filter.mpr ⟨hmem2, by simpa using hdue2⟩
    have hs2 : (id2, sc2) ∈ List.insertionSort entryLE
        (s.claimable.filter (fun e => e.2 ≤ now)) :=
      (List.perm_insertionSort entryLE _).mem_iff.mpr hf2
    have hnotintake : (id2, sc2) ∉ zrangebyscoreLimited s.claimable now limit := by
      intro hcontr
      exact hnotin2 (List.mem_map.mpr ⟨(id2, sc2), hcontr, rfl⟩)
    have hdrop : (id2, sc2) ∈ (List.insertionSort entryLE
        (s.claimable.filter (fun e => e.2 ≤ now))).drop limit := by
      have := (List.take_append_drop limit (List.insertionSort entryLE
        (s.claimable.filter (fun e => e.2 ≤ now)))).symm
      rcases List.mem_append.mp (this ▸ hs2) with h | h
      · exact absurd h hnotintake
      · exact h
    have hsorted : List.Pairwise entryLE (List.insertionSort entryLE
        (s.claimable.filter (fun e => e.2 ≤ now))) :=
      List.sorted_insertionSort entryLE _
    have hsplit := hsorted
    rw [← List.take_append_drop limit (List.insertionSort entryLE
      (s.claimable.filter (fun e => e.2 ≤ now))), List.pairwise_append] at hsplit
    have hrel : entryLE e (id2, sc2) := hsplit.2.2 e he (id2, sc2) hdrop
    obtain ⟨hze, _⟩ := hmemz e he
    have hsceq : sc = e.2 := by
      rw [← heid] at hzid
      rw [hze] at hzid
      exact (Option.some_injective _ hzid).symm
    rw [← heid, hsceq]
    exact hrel
  · intro hempty
    rw [claimPendingScript, zrangebyscoreLimited, hempty]
    simp [List.insertionSort]

/-- Witness for C5: a store with one due and one future entry; the due entry is
claimed and batched, the future one stays claimable. -/
theorem claim_pending_spec_witness :
    ((claimPendingScript
      { bets := fun _ => none, claimable := [("a", 10), ("z", 99)], processing := [],
        userIndex := fun _ => [] } 5 "batch1" "w1" 50).2.length = 1) ∧
    (zscore (claimPendingScript
      { bets := fun _ => none, claimable := [("a", 10), ("z", 99)], processing := [],
        userIndex := fun _ => [] } 5 "batch1" "w1" 50).1.claimable "z" = some 99) := by
  have h := claim_pending_spec
    { bets := fun _ => none, claimable := [("a", 10), ("z", 99)], processing := [],
      userIndex := fun _ => [] } 5 "batch1" "w1" 50 (by decide)
  refine ⟨?_, ?_⟩
  · rw [h.1]
    decide
  · have hz := h.2.2.1 "z" 99 (by decide) (by decide)
    exact hz.2.1

/-! ## C3 / C4: the operation step relation -/

/-- One public operation of the queue store.  The flag selects whether
`UpdateStatusCAS` is part of the operation set; `create` requires a fresh id
(the repository allocates a new UUIDv4). -/
inductive Step : Bool → Store → Store → Prop where
  | create (allowCas : Bool) (s : Store)
      (id userWallet vaultAddress allowancePda stakeToken choice : String)
      (stakeAmount nowMs : Int) (hfresh : s.bets id = none) :
      Step allowCas s
        (createBet s id userWallet vaultAddress allowancePda stakeToken choice
          stakeAmount nowMs)
  | claim (allowCas : Bool) (s : Store) (limit : Int) (batchId pid : String)
      (nowMs : Int) :
      Step allowCas s (repoClaimPending s limit batchId pid nowMs).1
  | updStatus (allowCas : Bool) (s : Store) (id : String) (st : BetStatus)
      (tx : Option String) (nowMs maxR base maxMs : Int) :
      Step allowCas s (updateStatus s id st tx nowMs maxR base maxMs)
  | cas (s : Store) (id : String) (expected : Int) (st : BetStatus) :
      Step true s (casUpdate s id expected (statusToString st)).1

/-- States reachable from the empty store by the public operations. -/
def Reachable (allowCas : Bool) (s : Store) : Prop :=
  Relation.ReflTransGen (Step allowCas) Store.empty s

/-- The status-index consistency property of the spec. -/
def StatusIndexOK (s : Store) : Prop :=
  ∀ id,
    ((hgetStatus s id = "pending" ∨ hgetStatus s id = "failed_retryable") ↔
      zmem s.claimable id = true) ∧
    (hgetStatus s id = "batched" ↔ zmem s.processing id = true)

/-- A store change that touches only the bet `id` preserves the invariant as
soon as the two clauses hold at `id`. -/
theorem statusIndexOK_point_update (s t : Store) (id : String)
    (hok : StatusIndexOK s)
    (hst : ∀ k, k ≠ id → hgetStatus t k = hgetStatus s k)
    (hcl : ∀ k, k ≠ id → zmem t.claimable k = zmem s.claimable k)
    (hpr : ∀ k, k ≠ id → zmem t.processing k = zmem s.processing k)
    (hid1 : (hgetStatus t id = "pending" ∨ hgetStatus t id = "failed_retryable") ↔
      zmem t.claimable id = true)
    (hid2 : hgetStatus t id = "batched" ↔ zmem t.processing id = true) :
    StatusIndexOK t := by
  intro k
  by_cases hk : k = id
  · subst hk
    exact ⟨hid1, hid2⟩
  · rw [hst k hk, hcl k hk, hpr k hk]
    exact hok k

theorem statusIndexOK_empty : StatusIndexOK Store.empty := by
  intro id
  constructor
  · constructor
    · intro h
      rcases h with h | h <;> simp [hgetStatus, Store.empty] at h
    · intro h
      simp [zmem, Store.empty] at h
  · constructor
    · intro h
      simp [hgetStatus, Store.empty] at h
    · intro h
      simp [zmem, Store.empty] at h

theorem statusIndexOK_create (s : Store)
    (id userWallet vaultAddress allowancePda stakeToken choice : String)
    (stakeAmount nowMs : Int) (hok : StatusIndexOK s) (hfresh : s.bets id = none) :
    StatusIndexOK (createBet s id userWallet vaultAddress allowancePda stakeToken choice
      stakeAmount nowMs) := by
  have hstatus : hgetStatus (createBet s id userWallet vaultAddress allowancePda
      stakeToken choice stakeAmount nowMs) id = "pending" := by
    simp [createBet, hgetStatus, setBet]
  have hsempty : hgetStatus s id = "" := by
    simp [hgetStatus, hfresh]
  refine statusIndexOK_point_update s _ id hok ?_ ?_ ?_ ?_ ?_
  · intro k hk
    simp [createBet, hgetStatus, setBet, hk]
  · intro k hk
    exact zmem_zadd_of_ne _ _ _ _ hk
  · intro k hk
    rfl
  · rw [hstatus]
    exact iff_of_true (Or.inl rfl) (zmem_zadd_self _ _ _)
  · rw [hstatus]
    have hproc : zmem s.processing id = false := by
      have h2 := (hok id).2
      rw [hsempty] at h2
      cases hzp : zmem s.processing id
      · rfl
      · exact absurd (h2.mpr hzp) (by decide)
    constructor
    · intro h
      exact absurd h (by decide)
    · intro h
      rw [show (createBet s id userWallet vaultAddress allowancePda stakeToken choice
        stakeAmount nowMs).processing = s.processing from rfl] at h
      rw [hproc] at h
      cases h


theorem statusIndexOK_claimEntryStep (b p : String) (st : Store) (acc : List String)
    (e : String × Int) (hok : StatusIndexOK st) :
    StatusIndexOK (claimEntryStep b p (st, acc) e).1 := by
  have hstatus : hgetStatus (claimEntryStep b p (st, acc) e).1 e.1 = "batched" := by
    simp [claimEntryStep, hgetStatus, setBet]
  refine statusIndexOK_point_update st _ e.1 hok ?_ ?_ ?_ ?_ ?_
  · intro k hk
    simp [claimEntryStep, hgetStatus, setBet, hk]
  · intro k hk
    exact zmem_zrem_of_ne _ _ _ hk
  · intro k hk
    exact zmem_zadd_of_ne _ _ _ _ hk
  · rw [hstatus]
    have hcl : zmem (claimEntryStep b p (st, acc) e).1.claimable e.1 = false :=
      zmem_zrem_self st.claimable e.1
    rw [hcl]
    constructor
    · intro h
      rcases h with h | h <;> exact absurd h (by decide)
    · intro h
      cases h
  · rw [hstatus]
    exact iff_of_true rfl (zmem_zadd_self _ _ _)

theorem statusIndexOK_claimFold (b p : String) (es : List (String × Int)) :
    ∀ (st : Store) (acc : List String), StatusIndexOK st →
      StatusIndexOK (es.foldl (claimEntryStep b p) (st, acc)).1 := by
  induction es with
  | nil => intro st acc hok; exact hok
  | cons e rest ih =>
    intro st acc hok
    rw [List.foldl_cons]
    have hstep : claimEntryStep b p (st, acc) e =
        ((claimEntryStep b p (st, acc) e).1, acc ++ [e.1]) := by
      simp [claimEntryStep]
    rw [hstep]
    exact ih _ _ (statusIndexOK_claimEntryStep b p st acc e hok)

theorem statusIndexOK_claim (s : Store) (limit : Int) (batchId pid : String)
    (nowMs : Int) (hok : StatusIndexOK s) :
    StatusIndexOK (repoClaimPending s limit batchId pid nowMs).1 :=
  statusIndexOK_claimFold batchId pid _ s [] hok

theorem statusIndexOK_updateStatusPipe (s : Store) (id : String) (st : BetStatus)
    (tx : Option String) (nowMs : Int) (hok : StatusIndexOK s) :
    StatusIndexOK (updateStatusPipe s id st tx nowMs) := by
  have hstatus : hgetStatus (updateStatusPipe s id st tx nowMs) id = statusToString st := by
    cases st <;> cases tx <;> simp [updateStatusPipe, hgetStatus, setBet, statusToString]
  have hst : ∀ k, k ≠ id →
      hgetStatus (updateStatusPipe s id st tx nowMs) k = hgetStatus s k := by
    intro k hk
    cases st <;> cases tx <;> simp [updateStatusPipe, hgetStatus, setBet, hk]
  cases st with
  | pending =>
    refine statusIndexOK_point_update s _ id hok hst ?_ ?_ ?_ ?_
    · intro k hk
      exact zmem_zadd_of_ne _ _ _ _ hk
    · intro k hk
      exact zmem_zrem_of_ne _ _ _ hk
    · rw [hstatus]
      exact iff_of_true (Or.inl rfl) (zmem_zadd_self _ _ _)
    · rw [hstatus]
      have hpr : zmem (updateStatusPipe s id .pending tx nowMs).processing id = false :=
        zmem_zrem_self s.processing id
      rw [hpr]
      exact iff_of_false (by decide) (by decide)
  | failedRetryable =>
    refine statusIndexOK_point_update s _ id hok hst ?_ ?_ ?_ ?_
    · intro k hk
      exact zmem_zadd_of_ne _ _ _ _ hk
    · intro k hk
      exact zmem_zrem_of_ne _ _ _ hk
    · rw [hstatus]
      exact iff_of_true (Or.inr rfl) (zmem_zadd_self _ _ _)
    · rw [hstatus]
      have hpr : zmem (updateStatusPipe s id .failedRetryable tx nowMs).processing id =
          false := zmem_zrem_self s.processing id
      rw [hpr]
      exact iff_of_false (by decide) (by decide)
  | batched =>
    refine statusIndexOK_point_update s _ id hok hst ?_ ?_ ?_ ?_
    · intro k hk
      exact zmem_zrem_of_ne _ _ _ hk
    · intro k hk
      exact zmem_zadd_of_ne _ _ _ _ hk
    · rw [hstatus]
      have hcl : zmem (updateStatusPipe s id .batched tx nowMs).claimable id = false :=
        zmem_zrem_self s.claimable id
      rw [hcl]
      refine iff_of_false ?_ (by decide)
      intro h
      rcases h with h | h <;> exact absurd h (by decide)
    · rw [hstatus]
      exact iff_of_true rfl (zmem_zadd_self _ _ _)
  | submittedToSolana =>
    refine statusIndexOK_point_update s _ id hok hst ?_ ?_ ?_ ?_
    · intro k hk
      exact zmem_zrem_of_ne _ _ _ hk
    · intro k hk
      exact zmem_zrem_of_ne _ _ _ hk
    · rw [hstatus]
      have hcl : zmem (updateStatusPipe s id .submittedToSolana tx nowMs).claimable id =
          false := zmem_zrem_self s.claimable id
      rw [hcl]
      refine iff_of_false ?_ (by decide)
      intro h
      rcases h with h | h <;> exact absurd h (by decide)
    · rw [hstatus]
      have hpr : zmem (updateStatusPipe s id .submittedToSolana tx nowMs).processing id =
          false := zmem_zrem_self s.processing id
      rw [hpr]
      exact iff_of_false (by decide) (by decide)
  | confirmedOnSolana =>
    refine statusIndexOK_point_update s _ id hok hst ?_ ?_ ?_ ?_
    · intro k hk
      exact zmem_zrem_of_ne _ _ _ hk
    · intro k hk
      exact zmem_zrem_of_ne _ _ _ hk
    · rw [hstatus]
      have hcl : zmem (updateStatusPipe s id .confirmedOnSolana tx nowMs).claimable id =
          false := zmem_zrem_self s.claimable id
      rw [hcl]
      refine iff_of_false ?_ (by decide)
      intro h
      rcases h with h | h <;> exact absurd h (by decide)
    · rw [hstatus]
      have hpr : zmem (updateStatusPipe s id .confirmedOnSolana tx nowMs).processing id =
          false := zmem_zrem_self s.processing id
      rw [hpr]
      exact iff_of_false (by decide) (by decide)
  | completed =>
    refine statusIndexOK_point_update s _ id hok hst ?_ ?_ ?_ ?_
    · intro k hk
      exact zmem_zrem_of_ne _ _ _ hk
    · intro k hk
      exact zmem_zrem_of_ne _ _ _ hk
    · rw [hstatus]
      have hcl : zmem (updateStatusPipe s id .completed tx nowMs).claimable id = false :=
        zmem_zrem_self s.claimable id
      rw [hcl]
      refine iff_of_false ?_ (by decide)
      intro h
      rcases h with h | h <;> exact absurd h (by decide)
    · rw [hstatus]
      have hpr : zmem (updateStatusPipe s id .completed tx nowMs).processing id = false :=
        zmem_zrem_self s.processing id
      rw [hpr]
      exact iff_of_false (by decide) (by decide)
  | failedManualReview =>
    refine statusIndexOK_point_update s _ id hok hst ?_ ?_ ?_ ?_
    · intro k hk
      exact zmem_zrem_of_ne _ _ _ hk
    · intro k hk
      exact zmem_zrem_of_ne _ _ _ hk
    · rw [hstatus]
      have hcl : zmem (updateStatusPipe s id .failedManualReview tx nowMs).claimable id =
          false := zmem_zrem_self s.claimable id
      rw [hcl]
      refine iff_of_false ?_ (by decide)
      intro h
      rcases h with h | h <;> exact absurd h (by decide)
    · rw [hstatus]
      have hpr : zmem (updateStatusPipe s id .failedManualReview tx nowMs).processing id =
          false := zmem_zrem_self s.processing id
      rw [hpr]
      exact iff_of_false (by decide) (by decide)

theorem failRetryableScript_untouched (s : Store) (id : String)
    (nowMs maxR backoff : Int) (k : String) (hk : k ≠ id) :
    (failRetryableScript s id nowMs maxR backoff).1.bets k = s.bets k ∧
    zmem (failRetryableScript s id nowMs maxR backoff).1.claimable k =
      zmem s.claimable k ∧
    zmem (failRetryableScript s id nowMs maxR backoff).1.processing k =
      zmem s.processing k := by
  by_cases hover : hgetRetryCount s id + 1 > maxR
  · have hred : (failRetryableScript s id nowMs maxR backoff).1 =
        (let s1 := setBet s id
          { getBet s id with retryCount := hgetRetryCount s id + 1, solanaTxId := "" }
         let s2 := setBet s1 id { getBet s1 id with status := "failed_manual_review" }
         { s2 with claimable := zrem s2.claimable id, processing := zrem s2.processing id }) := by
      rw [failRetryableScript]
      simp only [if_pos hover]
    rw [hred]
    exact ⟨by simp [setBet, hk], zmem_zrem_of_ne _ _ _ hk, zmem_zrem_of_ne _ _ _ hk⟩
  · have hred : (failRetryableScript s id nowMs maxR backoff).1 =
        (let s1 := setBet s id
          { getBet s id with retryCount := hgetRetryCount s id + 1, solanaTxId := "" }
         let s2 := setBet s1 id
          { getBet s1 id with
            status := "failed_retryable",
            nextAttemptAtMs := nowMs + backoff }
         { s2 with
           claimable := zadd s2.claimable (nowMs + backoff) id,
           processing := zrem s2.processing id }) := by
      rw [failRetryableScript]
      simp only [if_neg hover]
    rw [hred]
    exact ⟨by simp [setBet, hk], zmem_zadd_of_ne _ _ _ _ hk, zmem_zrem_of_ne _ _ _ hk⟩

theorem statusIndexOK_failRetryableScript (s : Store) (id : String)
    (nowMs maxR backoff : Int) (hok : StatusIndexOK s) :
    StatusIndexOK (failRetryableScript s id nowMs maxR backoff).1 := by
  obtain ⟨_, h2, h3⟩ := failRetryableScript_spec s id nowMs maxR backoff
  have hst : ∀ k, k ≠ id →
      hgetStatus (failRetryableScript s id nowMs maxR backoff).1 k = hgetStatus s k := by
    intro k hk
    have := (failRetryableScript_untouched s id nowMs maxR backoff k hk).1
    rw [hgetStatus, this, hgetStatus]
  have hcl : ∀ k, k ≠ id →
      zmem (failRetryableScript s id nowMs maxR backoff).1.claimable k =
        zmem s.claimable k :=
    fun k hk => (failRetryableScript_untouched s id nowMs maxR backoff k hk).2.1
  have hpr : ∀ k, k ≠ id →
      zmem (failRetryableScript s id nowMs maxR backoff).1.processing k =
        zmem s.processing k :=
    fun k hk => (failRetryableScript_untouched s id nowMs maxR backoff k hk).2.2
  by_cases hover : hgetRetryCount s id + 1 > maxR
  · obtain ⟨hstat, hclm, hproc, _⟩ := h2 hover
    refine statusIndexOK_point_update s _ id hok hst hcl hpr ?_ ?_
    · rw [hstat, hclm]
      refine iff_of_false ?_ (by decide)
      intro h
      rcases h with h | h <;> exact absurd h (by decide)
    · rw [hstat, hproc]
      exact iff_of_false (by decide) (by decide)
  · obtain ⟨hstat, _, hzsc, hproc, _⟩ := h3 hover
    refine statusIndexOK_point_update s _ id hok hst hcl hpr ?_ ?_
    · rw [hstat]
      have hmem : zmem (failRetryableScript s id nowMs maxR backoff).1.claimable id =
          true := by
        rw [zmem_eq_zscore_isSome, hzsc]
        rfl
      rw [hmem]
      exact iff_of_true (Or.inr rfl) rfl
    · rw [hstat, hproc]
      exact iff_of_false (by decide) (by decide)

theorem statusIndexOK_updateStatus (s : Store) (id : String) (st : BetStatus)
    (tx : Option String) (nowMs maxR base maxMs : Int) (hok : StatusIndexOK s) :
    StatusIndexOK (updateStatus s id st tx nowMs maxR base maxMs) := by
  cases st with
  | failedRetryable =>
    exact statusIndexOK_failRetryableScript s id nowMs maxR
      (computeBackoffMs base maxMs (hgetRetryCount s id + 1)) hok
  | pending => exact statusIndexOK_updateStatusPipe s id .pending tx nowMs hok
  | batched => exact statusIndexOK_updateStatusPipe s id .batched tx nowMs hok
  | submittedToSolana =>
    exact statusIndexOK_updateStatusPipe s id .submittedToSolana tx nowMs hok
  | confirmedOnSolana =>
    exact statusIndexOK_updateStatusPipe s id .confirmedOnSolana tx nowMs hok
  | completed => exact statusIndexOK_updateStatusPipe s id .completed tx nowMs hok
  | failedManualReview =>
    exact statusIndexOK_updateStatusPipe s id .failedManualReview tx nowMs hok

theorem step_preserves_statusIndexOK {a b2 : Store} (h : Step false a b2)
    (hok : StatusIndexOK a) : StatusIndexOK b2 := by
  cases h
  case create id uw va ap stk ch amt now hfresh =>
    exact statusIndexOK_create a id uw va ap stk ch amt now hok hfresh
  case claim limit b p now =>
    exact statusIndexOK_claim a limit b p now hok
  case updStatus id st tx now maxR base maxMs =>
    exact statusIndexOK_updateStatus a id st tx now maxR base maxMs hok

/-- C3 (amended): in every store state reachable from the empty store by
`Create`, `ClaimPending` and `UpdateStatus` (with `UpdateStatusCAS` excluded —
see the counterexample), the status-index correspondence holds: status
`pending`/`failed_retryable` iff the id is in `claimable`, status `batched` iff
the id is in `processing`, and any other status implies the id is in neither
index. -/
theorem status_index_invariant (s : Store) (h : Reachable false s) :
    ∀ id,
      ((hgetStatus s id = "pending" ∨ hgetStatus s id = "failed_retryable") ↔
        zmem s.claimable id = true) ∧
      (hgetStatus s id = "batched" ↔ zmem s.processing id = true) ∧
      (hgetStatus s id ≠ "pending" → hgetStatus s id ≠ "failed_retryable" →
        hgetStatus s id ≠ "batched" →
        zmem s.claimable id = false ∧ zmem s.processing id = false) := by
  have hok : StatusIndexOK s := by
    induction h with
    | refl => exact statusIndexOK_empty
    | tail _ hstep ih => exact step_preserves_statusIndexOK hstep ih
  intro id
  refine ⟨(hok id).1, (hok id).2, ?_⟩
  intro h1 h2 h3
  constructor
  · cases hzc : zmem s.claimable id
    · rfl
    · rcases (hok id).1.mpr hzc with h | h
      · exact absurd h h1
      · exact absurd h h2
  · cases hzp : zmem s.processing id
    · rfl
    · exact absurd ((hok id).2.mpr hzp) h3

/-- Witness for C3: the invariant instantiated at the store holding one
freshly created bet. -/
theorem status_index_invariant_witness :
    ((hgetStatus (createBet Store.empty "b" "u" "v" "" "SOL" "heads" 100 0) "b" = "pending" ∨
      hgetStatus (createBet Store.empty "b" "u" "v" "" "SOL" "heads" 100 0) "b" =
        "failed_retryable") ↔
      zmem (createBet Store.empty "b" "u" "v" "" "SOL" "heads" 100 0).claimable "b" = true) ∧
    (hgetStatus (createBet Store.empty "b" "u" "v" "" "SOL" "heads" 100 0) "b" = "batched" ↔
      zmem (createBet Store.empty "b" "u" "v" "" "SOL" "heads" 100 0).processing "b" = true) := by
  have h := status_index_invariant (createBet Store.empty "b" "u" "v" "" "SOL" "heads" 100 0)
    (Relation.ReflTransGen.single
      (Step.create false Store.empty "b" "u" "v" "" "SOL" "heads" 100 0 rfl)) "b"
  exact ⟨h.1, h.2.1⟩

/-- C3 counterexample: with `UpdateStatusCAS` in the operation set the invariant
fails — the CAS script changes only the `status` and `version` hash fields and
never touches the indexes, so a CAS from `pending` to `batched` leaves the bet
in `claimable` and absent from `processing`. -/
theorem status_index_cex :
    ¬ (∀ s : Store, Reachable true s →
        ∀ id,
          ((hgetStatus s id = "pending" ∨ hgetStatus s id = "failed_retryable") ↔
            zmem s.claimable id = true) ∧
          (hgetStatus s id = "batched" ↔ zmem s.processing id = true)) := by
  intro h
  have hreach : Reachable true
      (casUpdate (createBet Store.empty "b" "u" "v" "" "SOL" "heads" 100 0) "b" 0
        (statusToString .batched)).1 :=
    Relation.ReflTransGen.tail
      (Relation.ReflTransGen.single
        (Step.create true Store.empty "b" "u" "v" "" "SOL" "heads" 100 0 rfl))
      (Step.cas (createBet Store.empty "b" "u" "v" "" "SOL" "heads" 100 0) "b" 0 .batched)
  have h2 := (h _ hreach "b").2
  have hst : hgetStatus (casUpdate (createBet Store.empty "b" "u" "v" "" "SOL" "heads" 100 0)
      "b" 0 (statusToString .batched)).1 "b" = "batched" := by
    simp [casUpdate, createBet, hgetVersion, hgetStatus, setBet, getBet, statusToString]
  have hzp : zmem (casUpdate (createBet Store.empty "b" "u" "v" "" "SOL" "heads" 100 0)
      "b" 0 (statusToString .batched)).1.processing "b" = false := by
    simp [casUpdate, createBet, hgetVersion, setBet, getBet, zmem, Store.empty]
  rw [hzp] at h2
  exact absurd (h2.mp hst) (by decide)

/-! ## C4: compare-and-swap and version monotonicity -/

theorem getBet_version (s : Store) (k : String) :
    (getBet s k).version = hgetVersion s k := by
  rw [getBet, hgetVersion]
  cases h : s.bets k <;> simp [BetRecord.empty]

/-- A hash rewrite that keeps the `version` field keeps `hgetVersion`. -/
theorem hgetVersion_setBet_keep (s : Store) (id : String) (r : BetRecord)
    (h : r.version = (getBet s id).version) :
    hgetVersion (setBet s id r) id = hgetVersion s id := by
  rw [hgetVersion, bets_setBet_self]
  show r.version = hgetVersion s id
  rw [h, getBet_version]

theorem claimEntryStep_version (b p : String) (st : Store) (acc : List String)
    (e : String × Int) (k : String) :
    hgetVersion (claimEntryStep b p (st, acc) e).1 k = hgetVersion st k ∧
    (st.bets k ≠ none → (claimEntryStep b p (st, acc) e).1.bets k ≠ none) := by
  by_cases hk : k = e.1
  · subst hk
    constructor
    · exact hgetVersion_setBet_keep _ _ _ rfl
    · intro _
      simp [claimEntryStep, setBet]
  · constructor
    · simp [claimEntryStep, hgetVersion, setBet, hk]
    · intro h
      simpa [claimEntryStep, setBet, hk] using h

theorem claimFold_version (b p : String) (es : List (String × Int)) :
    ∀ (st : Store) (acc : List String) (k : String),
      hgetVersion (es.foldl (claimEntryStep b p) (st, acc)).1 k = hgetVersion st k ∧
      (st.bets k ≠ none → (es.foldl (claimEntryStep b p) (st, acc)).1.bets k ≠ none) := by
  induction es with
  | nil => intro st acc k; exact ⟨rfl, fun h => h⟩
  | cons e rest ih =>
    intro st acc k
    rw [List.foldl_cons]
    have hstep : claimEntryStep b p (st, acc) e =
        ((claimEntryStep b p (st, acc) e).1, acc ++ [e.1]) := by
      simp [claimEntryStep]
    rw [hstep]
    obtain ⟨hv, hs⟩ := claimEntryStep_version b p st acc e k
    obtain ⟨hv2, hs2⟩ := ih (claimEntryStep b p (st, acc) e).1 (acc ++ [e.1]) k
    exact ⟨hv2.trans hv, fun h => hs2 (hs h)⟩

theorem updateStatusPipe_version (s : Store) (id : String) (st : BetStatus)
    (tx : Option String) (nowMs : Int) (k : String) :
    hgetVersion (updateStatusPipe s id st tx nowMs) k = hgetVersion s k ∧
    (s.bets k ≠ none → (updateStatusPipe s id st tx nowMs).bets k ≠ none) := by
  by_cases hk : k = id
  · subst hk
    constructor
    · cases st <;> cases tx <;> exact hgetVersion_setBet_keep _ _ _ rfl
    · intro _
      cases st <;> cases tx <;> simp [updateStatusPipe, setBet]
  · constructor
    · cases st <;> cases tx <;> simp [updateStatusPipe, hgetVersion, setBet, hk]
    · intro h
      cases st <;> cases tx <;> simpa [updateStatusPipe, setBet, hk] using h

theorem failRetryableScript_version (s : Store) (id : String)
    (nowMs maxR backoff : Int) (k : String) :
    hgetVersion (failRetryableScript s id nowMs maxR backoff).1 k = hgetVersion s k ∧
    (s.bets k ≠ none → (failRetryableScript s id nowMs maxR backoff).1.bets k ≠ none) := by
  by_cases hk : k = id
  · subst hk
    have h1 : hgetVersion (setBet s k
        { getBet s k with retryCount := hgetRetryCount s k + 1, solanaTxId := "" }) k =
        hgetVersion s k :=
      hgetVersion_setBet_keep s k _ rfl
    by_cases hover : hgetRetryCount s k + 1 > maxR
    · constructor
      · rw [failRetryableScript]
        simp only [if_pos hover]
        have h2 : hgetVersion (setBet (setBet s k
            { getBet s k with retryCount := hgetRetryCount s k + 1, solanaTxId := "" }) k
            { getBet (setBet s k
                { getBet s k with retryCount := hgetRetryCount s k + 1, solanaTxId := "" }) k
              with status := "failed_manual_review" }) k =
            hgetVersion (setBet s k
              { getBet s k with retryCount := hgetRetryCount s k + 1, solanaTxId := "" }) k :=
          hgetVersion_setBet_keep _ k _ rfl
        exact h2.trans h1
      · intro _
        rw [failRetryableScript]
        simp only [if_pos hover]
        simp [setBet]
    · constructor
      · rw [failRetryableScript]
        simp only [if_neg hover]
        have h2 : hgetVersion (setBet (setBet s k
            { getBet s k with retryCount := hgetRetryCount s k + 1, solanaTxId := "" }) k
            { getBet (setBet s k
                { getBet s k with retryCount := hgetRetryCount s k + 1, solanaTxId := "" }) k
              with
              status := "failed_retryable",
              nextAttemptAtMs := nowMs + backoff }) k =
            hgetVersion (setBet s k
              { getBet s k with retryCount := hgetRetryCount s k + 1, solanaTxId := "" }) k :=
          hgetVersion_setBet_keep _ k _ rfl
        exact h2.trans h1
      · intro _
        rw [failRetryableScript]
        simp only [if_neg hover]
        simp [setBet]
  · by_cases hover : hgetRetryCount s id + 1 > maxR
    · constructor
      · rw [failRetryableScript]
        simp only [if_pos hover]
        simp [hgetVersion, setBet, hk]
      · intro h
        rw [failRetryableScript]
        simp only [if_pos hover]
        simpa [setBet, hk] using h
    · constructor
      · rw [failRetryableScript]
        simp only [if_neg hover]
        simp [hgetVersion, setBet, hk]
      · intro h
        rw [failRetryableScript]
        simp only [if_neg hover]
        simpa [setBet, hk] using h

theorem updateStatus_version (s : Store) (id : String) (st : BetStatus)
    (tx : Option String) (nowMs maxR base maxMs : Int) (k : String) :
    hgetVersion (updateStatus s id st tx nowMs maxR base maxMs) k = hgetVersion s k ∧
    (s.bets k ≠ none → (updateStatus s id st tx nowMs maxR base maxMs).bets k ≠ none) := by
  cases st with
  | failedRetryable =>
    exact failRetryableScript_version s id nowMs maxR
      (computeBackoffMs base maxMs (hgetRetryCount s id + 1)) k
  | pending => exact updateStatusPipe_version s id .pending tx nowMs k
  | batched => exact updateStatusPipe_version s id .batched tx nowMs k
  | submittedToSolana => exact updateStatusPipe_version s id .submittedToSolana tx nowMs k
  | confirmedOnSolana => exact updateStatusPipe_version s id .confirmedOnSolana tx nowMs k
  | completed => exact updateStatusPipe_version s id .completed tx nowMs k
  | failedManualReview => exact updateStatusPipe_version s id .failedManualReview tx nowMs k

theorem step_preserves_version {f : Bool} {a b2 : Store} (h : Step f a b2) (id : String)
    (v : Int) (hsome : a.bets id ≠ none) (hv : v ≤ hgetVersion a id) :
    b2.bets id ≠ none ∧ v ≤ hgetVersion b2 id := by
  cases h
  case create id0 uw va ap stk ch amt now hfresh =>
    have hne : id ≠ id0 := fun hcontr => hsome (hcontr ▸ hfresh)
    constructor
    · simpa [createBet, setBet, hne] using hsome
    · have : hgetVersion (createBet a id0 uw va ap stk ch amt now) id =
          hgetVersion a id := by
        simp [createBet, hgetVersion, setBet, hne]
      rw [this]
      exact hv
  case claim limit b p now =>
    obtain ⟨hveq, hsome2⟩ := claimFold_version b p
      (zrangebyscoreLimited a.claimable now (min (max limit 0) 500).toNat) a [] id
    exact ⟨hsome2 hsome, hveq ▸ hv⟩
  case updStatus id0 st tx now maxR base maxMs =>
    obtain ⟨hveq, hsome2⟩ := updateStatus_version a id0 st tx now maxR base maxMs id
    exact ⟨hsome2 hsome, hveq ▸ hv⟩
  case cas id0 expected st0 =>
    by_cases hcur : hgetVersion a id0 = expected
    · have hred : (casUpdate a id0 expected (statusToString st0)).1 =
          setBet a id0
            { getBet a id0 with
              status := statusToString st0,
              version := hgetVersion a id0 + 1 } := by
        rw [casUpdate]
        simp [hcur]
      rw [hred]
      by_cases hk : id = id0
      · subst hk
        refine ⟨by simp [setBet], ?_⟩
        have hveq : hgetVersion (setBet a id
            { getBet a id with
              status := statusToString st0,
              version := hgetVersion a id + 1 }) id = hgetVersion a id + 1 := by
          rw [hgetVersion, bets_setBet_self]
          rfl
        rw [hveq]
        omega
      · refine ⟨by simpa [setBet, hk] using hsome, ?_⟩
        have hveq : hgetVersion (setBet a id0
            { getBet a id0 with
              status := statusToString st0,
              version := hgetVersion a id0 + 1 }) id = hgetVersion a id := by
          simp [hgetVersion, setBet, hk]
        rw [hveq]
        exact hv
    · have hred : (casUpdate a id0 expected (statusToString st0)).1 = a := by
        rw [casUpdate]
        simp [hcur]
      rw [hred]
      exact ⟨hsome, hv⟩

/-- C4: `UpdateStatusCAS` succeeds iff the stored version (absent reading `0`,
as in the script) equals the expected one; on success it writes the status and
increments the version by exactly 1, touching no other bet and neither index,
and every subsequent state reachable by further operations keeps
`version ≥ expected + 1`; on failure the store is unchanged. -/
theorem cas_update_spec (s : Store) (id : String) (expected : Int) (newStatus : String) :
    ((casUpdate s id expected newStatus).2 = true ↔ hgetVersion s id = expected) ∧
    ((casUpdate s id expected newStatus).2 = true →
      hgetVersion (casUpdate s id expected newStatus).1 id = expected + 1 ∧
      hgetStatus (casUpdate s id expected newStatus).1 id = newStatus ∧
      (∀ k, k ≠ id → (casUpdate s id expected newStatus).1.bets k = s.bets k) ∧
      (casUpdate s id expected newStatus).1.claimable = s.claimable ∧
      (casUpdate s id expected newStatus).1.processing = s.processing) ∧
    ((casUpdate s id expected newStatus).2 = false →
      (casUpdate s id expected newStatus).1 = s) ∧
    ((casUpdate s id expected newStatus).2 = true →
      ∀ t, Relation.ReflTransGen (Step true) (casUpdate s id expected newStatus).1 t →
        expected + 1 ≤ hgetVersion t id) := by
  by_cases hcur : hgetVersion s id = expected
  · have hred : casUpdate s id expected newStatus =
        (setBet s id
          { getBet s id with status := newStatus, version := hgetVersion s id + 1 },
         true) := by
      rw [casUpdate]
      simp [hcur]
    refine ⟨?_, ?_, ?_, ?_⟩
    · rw [hred]
      exact iff_of_true rfl hcur
    · intro _
      rw [hred]
      refine ⟨?_, ?_, ?_, rfl, rfl⟩
      · have : hgetVersion (setBet s id
            { getBet s id with status := newStatus, version := hgetVersion s id + 1 }) id =
            hgetVersion s id + 1 := by
          simp [hgetVersion, setBet]
        rw [this, hcur]
      · simp [hgetStatus, setBet]
      · intro k hk
        exact bets_setBet_ne _ _ _ _ hk
    · intro hfalse
      rw [hred] at hfalse
      cases hfalse
    · intro _ t hrtg
      have hbase : (casUpdate s id expected newStatus).1.bets id ≠ none ∧
          expected + 1 ≤ hgetVersion (casUpdate s id expected newStatus).1 id := by
        rw [hred]
        refine ⟨by simp [setBet], ?_⟩
        have : hgetVersion (setBet s id
            { getBet s id with status := newStatus, version := hgetVersion s id + 1 }) id =
            hgetVersion s id + 1 := by
          simp [hgetVersion, setBet]
        rw [this, hcur]
      have : t.bets id ≠ none ∧ expected + 1 ≤ hgetVersion t id := by
        induction hrtg with
        | refl => exact hbase
        | tail _ hstep ih => exact step_preserves_version hstep id (expected + 1) ih.1 ih.2
      exact this.2
  · have hred : casUpdate s id expected newStatus = (s, false) := by
      rw [casUpdate]
      simp [hcur]
    refine ⟨?_, ?_, ?_, ?_⟩
    · rw [hred]
      exact iff_of_false (by simp) hcur
    · intro htrue
      rw [hred] at htrue
      cases htrue
    · intro _
      rw [hred]
    · intro htrue
      rw [hred] at htrue
      cases htrue

/-- Witness for C4: on a store holding one bet at version 0, a CAS expecting 0
succeeds and a subsequent read sees version 1. -/
theorem cas_update_spec_witness :
    ((casUpdate (createBet Store.empty "b" "u" "v" "" "SOL" "heads" 100 0) "b" 0
      "batched").2 = true) ∧
    (hgetVersion (casUpdate (createBet Store.empty "b" "u" "v" "" "SOL" "heads" 100 0)
      "b" 0 "batched").1 "b" = 1) := by
  have h := cas_update_spec (createBet Store.empty "b" "u" "v" "" "SOL" "heads" 100 0)
    "b" 0 "batched"
  have hsucc : (casUpdate (createBet Store.empty "b" "u" "v" "" "SOL" "heads" 100 0)
      "b" 0 "batched").2 = true := by
    rw [h.1]
    simp [createBet, hgetVersion, setBet]
  exact ⟨hsucc, by simpa using (h.2.1 hsucc).1⟩

/-- Witness for C10: a negative requested limit claims nothing on the empty
store, and a missing query limit defaults to 100. -/
theorem claim_pending_limit_cap_witness :
    handlerEffectiveLimit none = 100 ∧
    repoClaimPending Store.empty (-3) "b" "p" 0 = (Store.empty, []) := by
  have h := claim_pending_limit_cap Store.empty (-3) "b" "p" 0
  exact ⟨h.2.2.2.1, h.2.2.1 (by norm_num)⟩

end Atomiq
